import Mathlib

/-!
Verification of the supersonar static-analysis scanner.

This file gives a shallow embedding, in Lean, of the scanning pipeline of
the supersonar repository (src/supersonar/scanner.py and the rule engines
under src/supersonar/rules/), and proves or refutes a fixed list of claims
about it.  Machine strings are modelled as Lean String values (their
character lists are manipulated directly), Python ints as Nat, Python
floats as exact rationals, and Python sets as Finsets or deduplicated
lists.  File-system traversal and OS calls are abstracted: the scan is
modelled over the list of eligible files it visits, each file carrying its
resolved path, its text content and the outcome of the engine run on it.
-/

/-! ## Basic character and string helpers -/

/-- Whitespace characters recognised by the Python regex class bs and by
str.strip for the ASCII sources this scanner processes. -/
def isPySpace (c : Char) : Bool :=
  c = ' ' || c = '\t' || c = '\n' || c = '\r' || c = '\x0b' || c = '\x0c'

/-- Word characters of the Python regex class bw restricted to ASCII:
letters, digits and the underscore. -/
def isWordChar (c : Char) : Bool :=
  c.isAlphanum || c = '_'

/-- Lowercase a string character-wise (ASCII; models str.lower on the
ASCII identifiers, extensions and markers this scanner compares). -/
def lowerStr (s : String) : String :=
  ⟨s.data.map Char.toLower⟩

/-- Uppercase a string character-wise (ASCII; models str.upper). -/
def upperStr (s : String) : String :=
  ⟨s.data.map Char.toUpper⟩

/-- Drop leading characters satisfying p (ASCII str.lstrip direction). -/
def dropLeading (p : Char → Bool) (l : List Char) : List Char :=
  l.dropWhile p

/-- Models str.strip: remove leading and trailing whitespace. -/
def stripChars (l : List Char) : List Char :=
  ((l.dropWhile isPySpace).reverse.dropWhile isPySpace).reverse

/-- Models str.strip on strings. -/
def stripStr (s : String) : String :=
  ⟨stripChars s.data⟩

/-- Split a character list on a separator character; models str.split with
a one-character separator (empty pieces are kept, the result is never
empty). -/
def splitOnSep (sep : Char) : List Char → List (List Char)
  | [] => [[]]
  | c :: rest =>
      let parts := splitOnSep sep rest
      if c = sep then [] :: parts
      else
        match parts with
        | [] => [[c]]
        | p :: ps => (c :: p) :: ps

/-- Keep the first occurrence of every element, dropping later
duplicates; models the key order of a Python dict or the element set of a
Python set comprehension. -/
def firstDedup [DecidableEq α] : List α → List α
  | [] => []
  | x :: xs => x :: (firstDedup xs).filter (· ≠ x)

/-- Join a list of strings with a separator string; models sep.join. -/
def joinWith (sep : String) : List String → String
  | [] => ""
  | [s] => s
  | s :: rest => s ++ sep ++ joinWith sep rest

/-- Decimal digits of a natural number, most significant first; the first
argument is fuel, always called with enough of it. -/
def natDigits : Nat → Nat → List Char
  | 0, _ => []
  | fuel + 1, n =>
      if n < 10 then [Char.ofNat (48 + n)]
      else natDigits fuel (n / 10) ++ [Char.ofNat (48 + n % 10)]

/-- Decimal rendering of a natural number; models the rendering of a
Python int inside an f-string. -/
def natToStr (n : Nat) : String :=
  ⟨natDigits (n + 1) n⟩

/-- Strict lexicographic comparison of character lists by code point;
models the comparison Python uses on str values. -/
def charsLt : List Char → List Char → Bool
  | [], [] => false
  | [], _ :: _ => true
  | _ :: _, [] => false
  | a :: as, b :: bs =>
      if a.toNat < b.toNat then true
      else if b.toNat < a.toNat then false
      else charsLt as bs

/-- Strict string comparison by code point, models Python str ordering. -/
def strLt (a b : String) : Bool :=
  charsLt a.data b.data

/-! ## Data model (src/supersonar/models.py)

Issue mirrors the dataclass field for field; Severity is kept as the
literal strings of the Python type alias. -/

structure Issue where
  rule_id : String
  title : String
  severity : String
  message : String
  file_path : String
  line : Nat
  column : Nat
  deriving DecidableEq, Repr

/-- ScanResult without the externally produced coverage payload, which no
claim touches. -/
structure ScanResult where
  issues : List Issue
  files_scanned : Nat
  deriving DecidableEq, Repr

/-! ## Engine dispatch (src/supersonar/scanner.py lines 88 to 92 and
135 to 139, together with the engine classes exported by
src/supersonar/rules/__init__.py) -/

/-- The rule-engine classes the repository defines and exports. -/
inductive Engine where
  | python
  | generic
  | java
  | javascript
  | go
  | kotlin
  deriving DecidableEq, Repr

/-- Engine selection performed by scan_path for an eligible file: the
Python engine when the lowercased extension is ".py", the Generic engine
otherwise (scanner.py lines 135 to 139; the single-file branch at lines
88 to 92 is identical).  scan_path never instantiates the Java,
JavaScript, Go or Kotlin engines. -/
def selectEngine (suffix : String) : Engine :=
  if lowerStr suffix = ".py" then Engine.python else Engine.generic

/-- C1: the scan dispatches a .py file to the Python engine, a file whose
extension is in a per-language extension set to the matching
bracket-language engine (Go, Java, JavaScript, Kotlin), and any other
file to the Generic engine.  The code refutes the bracket-language part:
scan_path sends every non-Python extension, including .java, .kt, .js,
.jsx and .go, to the Generic engine, and never calls the bracket-language
engines at all, although the scanner test-suite requires Java, Kotlin,
JavaScript and Go specific rule ids to come out of a scan. -/
theorem C1_dispatch_ignores_bracket_engines :
    selectEngine ".java" = Engine.generic ∧
    selectEngine ".kt" = Engine.generic ∧
    selectEngine ".js" = Engine.generic ∧
    selectEngine ".jsx" = Engine.generic ∧
    selectEngine ".go" = Engine.generic ∧
    selectEngine ".py" = Engine.python ∧
    Engine.generic ≠ Engine.java ∧
    Engine.generic ≠ Engine.kotlin ∧
    Engine.generic ≠ Engine.javascript ∧
    Engine.generic ≠ Engine.go := by
  refine ⟨?_, ?_, ?_, ?_, ?_, ?_, ?_, ?_, ?_, ?_⟩ <;> decide

/-! ## Rule set normalisation (scanner.py lines 73 to 74)

Python truthiness makes an empty enabled_rules list behave exactly like
None: enabled_rule_set = set(enabled_rules) if enabled_rules else None. -/

/-- Models enabled_rule_set: None and the empty list both collapse to no
allow-list; a nonempty list is kept (set membership is all that is ever
used, so the list itself stands for the set). -/
def mkEnabledRuleSet : Option (List String) → Option (List String)
  | none => none
  | some l => if l.isEmpty then none else some l

/-- Models disabled_rule_set = set(disabled_rules or []). -/
def mkDisabledRuleSet : Option (List String) → List String
  | none => []
  | some l => l

/-! ## Inline suppression (scanner.py lines 10 and 223 to 249)

The regex INLINE_IGNORE_PATTERN searches each source line for the marker
"supersonar:ignore" case-insensitively, optionally followed by at least
one whitespace character and a captured run of characters from the class
[A-Za-z0-9_, -].  The search and the greedy capture are implemented
directly on the character list below; the captured group, when present,
feeds the token parsing of lines 241 to 246. -/

/-- Characters of the captured-group class [A-Za-z0-9_, -]. -/
def isIgnoreClassChar (c : Char) : Bool :=
  c.isAlphanum || c = '_' || c = ',' || c = ' ' || c = '-'

/-- Boolean test that pat is a leading segment of l. -/
def leadsList : List Char → List Char → Bool
  | [], _ => true
  | _ :: _, [] => false
  | p :: ps, c :: cs => p = c && leadsList ps cs

/-- Index of the first occurrence of pat inside l, if any. -/
def findSubIdx (pat : List Char) : List Char → Option Nat
  | [] => if leadsList pat [] then some 0 else none
  | c :: rest =>
      if leadsList pat (c :: rest) then some 0
      else (findSubIdx pat rest).map (· + 1)

/-- Length of the leading run of characters satisfying p. -/
def countLeading (p : Char → Bool) : List Char → Nat
  | [] => 0
  | c :: rest => if p c then countLeading p rest + 1 else 0

/-- The marker text of INLINE_IGNORE_PATTERN. -/
def ignoreMarker : List Char := "supersonar:ignore".data

/-- The optional captured group of INLINE_IGNORE_PATTERN evaluated after
the marker: the greedy bs+ run followed by the greedy class run, with the
backtracking the Python regex engine performs when the whitespace run is
followed by no class character (a single space then serves as the group
when one is available). -/
def captureAfterMarker (rest : List Char) : Option String :=
  let m := countLeading isPySpace rest
  if m = 0 then none
  else
    match (rest.drop m).takeWhile isIgnoreClassChar with
    | c :: run => some ⟨c :: run⟩
    | [] =>
        if (List.range m).any (fun a => 1 ≤ a && (rest.drop a).headD '\n' = ' ')
        then some " "
        else none

/-- Models INLINE_IGNORE_PATTERN.search on one line: none when the marker
does not occur; some g with g the optional captured rule-list group when
it does. -/
def searchIgnore (line : String) : Option (Option String) :=
  match findSubIdx ignoreMarker (line.data.map Char.toLower) with
  | none => none
  | some i => some (captureAfterMarker (line.data.drop (i + ignoreMarker.length)))

/-- Models scanner.py lines 241 to 246: an absent group is the wildcard;
a present group is split on commas, each token stripped and uppercased,
empty tokens dropped, and an empty token set again collapses to the
wildcard. -/
def parseIgnoreGroup : Option String → List String
  | none => ["*"]
  | some s =>
      let parsed := firstDedup
        (((splitOnSep ',' s.data).map (fun t => upperStr ⟨stripChars t⟩)).filter (· ≠ ""))
      if parsed.isEmpty then ["*"] else parsed

/-- Models _get_inline_ignore_map as a lookup: line numbers are 1-based,
and an entry exists exactly for the lines on which the pattern matches
(scanner.py lines 237 to 246). -/
def getInlineIgnoreMap (lines : List String) (idx : Nat) : Option (List String) :=
  if idx = 0 then none
  else
    match lines.get? (idx - 1) with
    | none => none
    | some l => (searchIgnore l).map parseIgnoreGroup

/-! ## Issue filtering (scanner.py lines 198 to 220) -/

/-- The suppression test of lines 216 to 217: the map holds an entry for
the issue line and that entry contains the wildcard or the rule id. -/
def inlineSuppressed (inlineMap : Nat → Option (List String))
    (ruleId : String) (line : Nat) : Bool :=
  match inlineMap line with
  | none => false
  | some rules => decide ("*" ∈ rules) || decide (ruleId ∈ rules)

/-- Models _filter_issues: each issue first has its file_path overwritten
with the normalized path, then is dropped when its rule id is disabled,
when an allow-list is present that does not contain it, or when it is
inline-suppressed on its line. -/
def filter_issues (fileIssues : List Issue) (normalizedFilePath : String)
    (enabledRules : Option (List String)) (disabledRules : List String)
    (inlineMap : Nat → Option (List String)) : List Issue :=
  fileIssues.filterMap (fun issue0 =>
    let issue := { issue0 with file_path := normalizedFilePath }
    if issue.rule_id ∈ disabledRules then none
    else if (match enabledRules with
             | some allowed => decide (issue.rule_id ∉ allowed)
             | none => false) then none
    else if inlineSuppressed inlineMap issue.rule_id issue.line then none
    else some issue)

/-! ## Deduplication and ordering (scanner.py lines 177 to 182)

_dedupe_issues builds a dict keyed by
(file_path, rule_id, line, column, message) in which a later issue with
the same key overwrites the earlier value while keeping the key position
(Python dict semantics), then sorts the values by
(file_path, line, column, rule_id) with the stable built-in sort.  The
dict is modelled as an association list with in-place overwrite, and
sorted(...) as a stable insertion sort over the same key. -/

/-- Dedup key of an issue (the fingerprint tuple of line 180). -/
def issueKey (i : Issue) : String × String × Nat × Nat × String :=
  (i.file_path, i.rule_id, i.line, i.column, i.message)

/-- Strict lexicographic comparison of the sort keys
(file_path, line, column, rule_id) of line 182: Python tuple comparison,
strings by code point. -/
def issueLtB (a b : Issue) : Bool :=
  strLt a.file_path b.file_path ||
  (decide (a.file_path = b.file_path) && (decide (a.line < b.line) ||
    (decide (a.line = b.line) && (decide (a.column < b.column) ||
      (decide (a.column = b.column) && strLt a.rule_id b.rule_id)))))

/-- Non-strict comparison of the sort keys, as the negated reversed
strict comparison. -/
def issueLeB (a b : Issue) : Bool :=
  !(issueLtB b a)

/-- Dict insertion with last-write-wins value and first-write key
position. -/
def dictInsert (m : List ((String × String × Nat × Nat × String) × Issue))
    (i : Issue) : List ((String × String × Nat × Nat × String) × Issue) :=
  match m with
  | [] => [(issueKey i, i)]
  | (k, v) :: rest =>
      if k = issueKey i then (k, i) :: rest else (k, v) :: dictInsert rest i

/-- Stable insertion of one element into a list sorted by le: the new
element goes before the first existing element it compares
less-or-equal to. -/
def insertLe (le : Issue → Issue → Bool) (x : Issue) : List Issue → List Issue
  | [] => [x]
  | y :: ys => if le x y then x :: y :: ys else y :: insertLe le x ys

/-- Stable insertion sort by le; models the stable built-in sorted. -/
def sortLe (le : Issue → Issue → Bool) : List Issue → List Issue
  | [] => []
  | x :: xs => insertLe le x (sortLe le xs)

/-- Models _dedupe_issues. -/
def dedupe_issues (issues : List Issue) : List Issue :=
  sortLe issueLeB ((issues.foldl dictInsert []).map (·.2))

/-! ## Path handling (scanner.py lines 66, 100, 109 and 170 to 174)

Resolved filesystem paths are modelled as their component lists (POSIX,
absolute).  Path.resolve is the identity on them; Path.relative_to
succeeds exactly when the root components lead the path components, and
pathlib renders the empty relative path as ".". -/

/-- Rendering of an absolute path, str(Path(...)). -/
def pathStr (p : List String) : String :=
  "/" ++ joinWith "/" p

/-- Rendering of a relative path; pathlib collapses no components to ".". -/
def relStr (rel : List String) : String :=
  if rel.isEmpty then "." else joinWith "/" rel

/-- Models _relative_path: the path relative to the root when the root
leads it, otherwise the unmodified str(path). -/
def relative_path (p root : List String) : String :=
  if root <+: p then relStr (p.drop root.length) else pathStr p

/-- Models Path.name, the final component. -/
def pathName (p : List String) : String :=
  p.getLastD ""

/-! ## The scan over eligible files (scanner.py lines 54 to 167)

Directory walking, exclusion and eligibility checks are abstracted into
the list of eligible files the walk visits, in visit order.  Each file
carries its resolved path components, its text lines (read again by the
inline-ignore map), and the outcome of the engine run: either the issues
the engine returned or the OSError message the engine raised. -/

/-- Outcome of engine.run on one file. -/
inductive EngineResult where
  | ok (issues : List Issue)
  | err (msg : String)
  deriving DecidableEq, Repr

structure FileOutcome where
  path : List String
  lines : List String
  result : EngineResult
  deriving DecidableEq, Repr

/-- Scan configuration subset the orchestrator reads. -/
structure ScanConfig where
  enabled_rules : Option (List String)
  disabled_rules : Option (List String)
  inline_ignore : Bool
  deriving DecidableEq, Repr

/-- The inline map passed to _filter_issues: the per-file map when
inline_ignore is on, the empty map otherwise (scanner.py line 208). -/
def inlineMapFor (cfg : ScanConfig) (f : FileOutcome) :
    Nat → Option (List String) :=
  if cfg.inline_ignore then getInlineIgnoreMap f.lines else fun _ => none

/-- The synthetic issue of scanner.py lines 94 to 104 and 142 to 152. -/
def ss900Issue (normalizedPath msg : String) : Issue :=
  { rule_id := "SS900"
    title := "File scan error"
    severity := "medium"
    message := "Unable to read file during scan: " ++ msg
    file_path := normalizedPath
    line := 1
    column := 1 }

/-- Issues one walked file contributes before deduplication: the filtered
engine issues, or the unfiltered synthetic SS900 issue when the engine
read failed (scanner.py lines 135 to 164). -/
def processFileDir (root : List String) (cfg : ScanConfig)
    (f : FileOutcome) : List Issue :=
  match f.result with
  | .err msg => [ss900Issue (relative_path f.path root) msg]
  | .ok engineIssues =>
      filter_issues engineIssues (relative_path f.path root)
        (mkEnabledRuleSet cfg.enabled_rules)
        (mkDisabledRuleSet cfg.disabled_rules)
        (inlineMapFor cfg f)

/-- Issues the single-file branch contributes: identical, except that the
normalized path is the bare file name (scanner.py lines 82 to 116). -/
def processFileSingle (cfg : ScanConfig) (f : FileOutcome) : List Issue :=
  match f.result with
  | .err msg => [ss900Issue (pathName f.path) msg]
  | .ok engineIssues =>
      filter_issues engineIssues (pathName f.path)
        (mkEnabledRuleSet cfg.enabled_rules)
        (mkDisabledRuleSet cfg.disabled_rules)
        (inlineMapFor cfg f)

/-- Pre-deduplication issue stream of a directory scan. -/
def scanStreamDir (root : List String) (cfg : ScanConfig)
    (files : List FileOutcome) : List Issue :=
  (files.map (processFileDir root cfg)).flatten

/-- Models scan_path on a directory root: root is the resolved root
directory and files the eligible files the walk visits. -/
def scan_path_dir (root : List String) (cfg : ScanConfig)
    (files : List FileOutcome) : ScanResult :=
  { issues := dedupe_issues (scanStreamDir root cfg files)
    files_scanned := files.length }

/-- Pre-deduplication issue stream of a single-file scan. -/
def scanStreamSingle (cfg : ScanConfig) (f : FileOutcome) : List Issue :=
  processFileSingle cfg f

/-- Models scan_path when the resolved root is itself a regular eligible
file. -/
def scan_path_single (cfg : ScanConfig) (f : FileOutcome) : ScanResult :=
  { issues := dedupe_issues (scanStreamSingle cfg f)
    files_scanned := 1 }

/-! ## Order lemmas for the sort key -/

theorem charsLt_asymm : ∀ {a b : List Char},
    charsLt a b = true → charsLt b a = true → False := by
  intro a
  induction a with
  | nil => intro b h1 h2; cases b <;> simp [charsLt] at h1 h2
  | cons x xs ih =>
      intro b h1 h2
      cases b with
      | nil => simp [charsLt] at h1
      | cons y ys =>
          simp only [charsLt] at h1 h2
          by_cases hxy : x.toNat < y.toNat
          · have : ¬ y.toNat < x.toNat := by omega
            simp [hxy, this] at h2
          · by_cases hyx : y.toNat < x.toNat
            · simp [hxy, hyx] at h1
            · simp [hxy, hyx] at h1 h2
              exact ih h1 h2

theorem charsLt_trans : ∀ {a b c : List Char},
    charsLt a b = true → charsLt b c = true → charsLt a c = true := by
  intro a
  induction a with
  | nil =>
      intro b c h1 h2
      cases b with
      | nil => simp [charsLt] at h1
      | cons y ys =>
          cases c with
          | nil => simp [charsLt] at h2
          | cons z zs => simp [charsLt]
  | cons x xs ih =>
      intro b c h1 h2
      cases b with
      | nil => simp [charsLt] at h1
      | cons y ys =>
          cases c with
          | nil => simp [charsLt] at h2
          | cons z zs =>
              simp only [charsLt] at h1 h2 ⊢
              by_cases hxy : x.toNat < y.toNat
              · by_cases hyz : y.toNat < z.toNat
                · have hxz : x.toNat < z.toNat := by omega
                  simp [hxz]
                · by_cases hzy : z.toNat < y.toNat
                  · simp [hyz, hzy] at h2
                  · have hyz' : y.toNat = z.toNat := by omega
                    have hxz : x.toNat < z.toNat := by omega
                    simp [hxz]
              · by_cases hyx : y.toNat < x.toNat
                · simp [hxy, hyx] at h1
                · have hxy' : x.toNat = y.toNat := by omega
                  by_cases hyz : y.toNat < z.toNat
                  · have hxz : x.toNat < z.toNat := by omega
                    simp [hxz]
                  · by_cases hzy : z.toNat < y.toNat
                    · simp [hyz, hzy] at h2
                    · have hxz : ¬ x.toNat < z.toNat := by omega
                      have hzx : ¬ z.toNat < x.toNat := by omega
                      simp [hxy, hyx] at h1
                      simp [hyz, hzy] at h2
                      simp [hxz, hzx]
                      exact ih h1 h2

theorem charsLt_connex_eq : ∀ {a b : List Char},
    charsLt a b = false → charsLt b a = false → a = b := by
  intro a
  induction a with
  | nil => intro b h1 _; cases b with
      | nil => rfl
      | cons y ys => simp [charsLt] at h1
  | cons x xs ih =>
      intro b h1 h2
      cases b with
      | nil => simp [charsLt] at h2
      | cons y ys =>
          simp only [charsLt] at h1 h2
          by_cases hxy : x.toNat < y.toNat
          · simp [hxy] at h1
          · by_cases hyx : y.toNat < x.toNat
            · simp [hxy, hyx] at h2
            · simp [hxy, hyx] at h1 h2
              have hx : x = y := by
                have hn : x.toNat = y.toNat := by omega
                exact Char.eq_of_val_eq (UInt32.eq_of_val_eq (Fin.ext hn))
              rw [hx, ih h1 h2]

theorem strLt_asymm {a b : String} (h1 : strLt a b = true)
    (h2 : strLt b a = true) : False :=
  charsLt_asymm h1 h2

theorem strLt_trans {a b c : String} (h1 : strLt a b = true)
    (h2 : strLt b c = true) : strLt a c = true :=
  charsLt_trans h1 h2

theorem strLt_connex_eq {a b : String} (h1 : strLt a b = false)
    (h2 : strLt b a = false) : a = b := by
  cases a with
  | mk da => cases b with
    | mk db =>
        have : da = db := charsLt_connex_eq h1 h2
        rw [this]


theorem strLt_irrefl {a : String} (h : strLt a a = true) : False :=
  strLt_asymm h h

theorem issueLtB_iff (a b : Issue) : issueLtB a b = true ↔
    (strLt a.file_path b.file_path = true ∨
      (a.file_path = b.file_path ∧ (a.line < b.line ∨
        (a.line = b.line ∧ (a.column < b.column ∨
          (a.column = b.column ∧ strLt a.rule_id b.rule_id = true)))))) := by
  simp [issueLtB]

theorem issueLtB_asymm {a b : Issue} (h1 : issueLtB a b = true)
    (h2 : issueLtB b a = true) : False := by
  rw [issueLtB_iff] at h1 h2
  rcases h1 with h1 | ⟨e1, h1⟩
  · rcases h2 with h2 | ⟨e2, h2⟩
    · exact strLt_asymm h1 h2
    · rw [e2] at h1; exact strLt_irrefl h1
  · rcases h2 with h2 | ⟨e2, h2⟩
    · rw [e1] at h2; exact strLt_irrefl h2
    · rcases h1 with h1 | ⟨l1, h1⟩ <;> rcases h2 with h2 | ⟨l2, h2⟩
      · omega
      · omega
      · omega
      · rcases h1 with h1 | ⟨c1, h1⟩ <;> rcases h2 with h2 | ⟨c2, h2⟩
        · omega
        · omega
        · omega
        · exact strLt_asymm h1 h2

theorem issueLtB_trans {a b c : Issue} (h1 : issueLtB a b = true)
    (h2 : issueLtB b c = true) : issueLtB a c = true := by
  rw [issueLtB_iff] at h1 h2 ⊢
  rcases h1 with h1 | ⟨e1, h1⟩
  · rcases h2 with h2 | ⟨e2, h2⟩
    · exact Or.inl (strLt_trans h1 h2)
    · refine Or.inl ?_; rw [← e2]; exact h1
  · rcases h2 with h2 | ⟨e2, h2⟩
    · refine Or.inl ?_; rw [e1]; exact h2
    · refine Or.inr ⟨e1.trans e2, ?_⟩
      rcases h1 with h1 | ⟨l1, h1⟩
      · rcases h2 with h2 | ⟨l2, h2⟩
        · exact Or.inl (by omega)
        · exact Or.inl (by omega)
      · rcases h2 with h2 | ⟨l2, h2⟩
        · exact Or.inl (by omega)
        · refine Or.inr ⟨l1.trans l2, ?_⟩
          rcases h1 with h1 | ⟨c1, h1⟩
          · rcases h2 with h2 | ⟨c2, h2⟩
            · exact Or.inl (by omega)
            · exact Or.inl (by omega)
          · rcases h2 with h2 | ⟨c2, h2⟩
            · exact Or.inl (by omega)
            · exact Or.inr ⟨c1.trans c2, strLt_trans h1 h2⟩

theorem issueLtB_connex {a b : Issue} (h1 : issueLtB a b = false)
    (h2 : issueLtB b a = false) :
    a.file_path = b.file_path ∧ a.line = b.line ∧ a.column = b.column ∧
      a.rule_id = b.rule_id := by
  have n1 : ¬ issueLtB a b = true := by simp [h1]
  have n2 : ¬ issueLtB b a = true := by simp [h2]
  rw [issueLtB_iff] at n1 n2
  by_cases f1 : strLt a.file_path b.file_path = true
  · exact absurd (Or.inl f1) n1
  by_cases f2 : strLt b.file_path a.file_path = true
  · exact absurd (Or.inl f2) n2
  have ef : a.file_path = b.file_path :=
    strLt_connex_eq (by simpa using f1) (by simpa using f2)
  by_cases l1 : a.line < b.line
  · exact absurd (Or.inr ⟨ef, Or.inl l1⟩) n1
  by_cases l2 : b.line < a.line
  · exact absurd (Or.inr ⟨ef.symm, Or.inl l2⟩) n2
  have el : a.line = b.line := by omega
  by_cases c1 : a.column < b.column
  · exact absurd (Or.inr ⟨ef, Or.inr ⟨el, Or.inl c1⟩⟩) n1
  by_cases c2 : b.column < a.column
  · exact absurd (Or.inr ⟨ef.symm, Or.inr ⟨el.symm, Or.inl c2⟩⟩) n2
  have ec : a.column = b.column := by omega
  by_cases r1 : strLt a.rule_id b.rule_id = true
  · exact absurd (Or.inr ⟨ef, Or.inr ⟨el, Or.inr ⟨ec, r1⟩⟩⟩) n1
  by_cases r2 : strLt b.rule_id a.rule_id = true
  · exact absurd (Or.inr ⟨ef.symm, Or.inr ⟨el.symm, Or.inr ⟨ec.symm, r2⟩⟩⟩) n2
  exact ⟨ef, el, ec, strLt_connex_eq (by simpa using r1) (by simpa using r2)⟩

theorem issueLtB_congr_left {a b c : Issue}
    (hf : a.file_path = b.file_path) (hl : a.line = b.line)
    (hc : a.column = b.column) (hr : a.rule_id = b.rule_id) :
    issueLtB a c = issueLtB b c := by
  unfold issueLtB
  rw [hf, hl, hc, hr]

theorem issueLeB_total (a b : Issue) :
    issueLeB a b = true ∨ issueLeB b a = true := by
  by_cases h : issueLtB b a = true
  · right
    unfold issueLeB
    have : issueLtB a b = false := by
      by_contra hc
      simp only [Bool.not_eq_false] at hc
      exact issueLtB_asymm hc h
    simp [this]
  · left
    unfold issueLeB
    simp only [Bool.not_eq_true] at h
    simp [h]

theorem issueLeB_trans {a b c : Issue} (h1 : issueLeB a b = true)
    (h2 : issueLeB b c = true) : issueLeB a c = true := by
  unfold issueLeB at h1 h2 ⊢
  simp only [Bool.not_eq_true'] at h1 h2
  simp only [Bool.not_eq_true']
  by_contra hca
  simp only [Bool.not_eq_false] at hca
  by_cases hab : issueLtB a b = true
  · exact absurd (issueLtB_trans hca hab) (by simp [h2])
  · have hkeys := issueLtB_connex (by simpa using hab) h1
    have hceq : issueLtB c a = issueLtB c b := by
      unfold issueLtB
      rw [hkeys.1, hkeys.2.1, hkeys.2.2.1, hkeys.2.2.2]
    rw [hceq] at hca
    exact absurd hca (by simp [h2])

/-! ## Correctness of the modelled stable sort -/

theorem insertLe_perm (le : Issue → Issue → Bool) (x : Issue) :
    ∀ l : List Issue, (insertLe le x l).Perm (x :: l) := by
  intro l
  induction l with
  | nil => simp [insertLe]
  | cons y ys ih =>
      unfold insertLe
      by_cases h : le x y = true
      · rw [if_pos h]
      · rw [if_neg h]
        exact (ih.cons y).trans (List.Perm.swap x y ys)

theorem sortLe_perm (le : Issue → Issue → Bool) :
    ∀ l : List Issue, (sortLe le l).Perm l := by
  intro l
  induction l with
  | nil => simp [sortLe]
  | cons x xs ih =>
      unfold sortLe
      exact (insertLe_perm le x (sortLe le xs)).trans (ih.cons x)

theorem insertLe_sorted (le : Issue → Issue → Bool)
    (htot : ∀ a b, le a b = true ∨ le b a = true)
    (htrans : ∀ a b c, le a b = true → le b c = true → le a c = true)
    (x : Issue) :
    ∀ l : List Issue, l.Pairwise (fun a b => le a b = true) →
      (insertLe le x l).Pairwise (fun a b => le a b = true) := by
  intro l
  induction l with
  | nil => intro _; simp [insertLe]
  | cons y ys ih =>
      intro hp
      unfold insertLe
      by_cases h : le x y = true
      · rw [if_pos h]
        refine List.Pairwise.cons ?_ hp
        intro z hz
        rcases List.mem_cons.mp hz with rfl | hzys
        · exact h
        · exact htrans x y z h (List.rel_of_pairwise_cons hp hzys)
      · rw [if_neg h]
        have hyx : le y x = true := (htot x y).resolve_left (by simpa using h)
        refine List.Pairwise.cons ?_ (ih (List.Pairwise.of_cons hp))
        intro z hz
        have hmem : z ∈ x :: ys := (insertLe_perm le x ys).mem_iff.mp hz
        rcases List.mem_cons.mp hmem with rfl | hzys
        · exact hyx
        · exact List.rel_of_pairwise_cons hp hzys

theorem sortLe_sorted (le : Issue → Issue → Bool)
    (htot : ∀ a b, le a b = true ∨ le b a = true)
    (htrans : ∀ a b c, le a b = true → le b c = true → le a c = true) :
    ∀ l : List Issue, (sortLe le l).Pairwise (fun a b => le a b = true) := by
  intro l
  induction l with
  | nil => simp [sortLe]
  | cons x xs ih =>
      unfold sortLe
      exact insertLe_sorted le htot htrans x (sortLe le xs) ih

/-! ## Correctness of the modelled dict accumulation -/

/-- Lookup in the association list that models the dedup dict. -/
def assocLookup (k : String × String × Nat × Nat × String) :
    List ((String × String × Nat × Nat × String) × Issue) → Option Issue
  | [] => none
  | (k', v) :: rest => if k' = k then some v else assocLookup k rest

/-- The last issue of the stream carrying a given fingerprint, the value a
Python dict holds for that key after the writes of line 181. -/
def lastWithKey (k : String × String × Nat × Nat × String)
    (issues : List Issue) : Option Issue :=
  issues.foldl (fun acc i => if issueKey i = k then some i else acc) none

theorem assocLookup_dictInsert (k : String × String × Nat × Nat × String)
    (i : Issue) :
    ∀ m, assocLookup k (dictInsert m i) =
      if issueKey i = k then some i else assocLookup k m := by
  intro m
  induction m with
  | nil => simp [dictInsert, assocLookup]
  | cons e rest ih =>
      obtain ⟨k', v⟩ := e
      unfold dictInsert
      by_cases hk : k' = issueKey i
      · rw [if_pos hk]
        by_cases hik : issueKey i = k
        · simp [assocLookup, hk, hik]
        · simp [assocLookup, hk, hik]
      · rw [if_neg hk]
        by_cases hk'k : k' = k
        · have : ¬ issueKey i = k := fun hc => hk (hk'k.trans hc.symm)
          simp [assocLookup, hk'k, this]
        · simp only [assocLookup, hk'k, if_false]
          exact ih

theorem assocLookup_foldl (k : String × String × Nat × Nat × String) :
    ∀ (issues : List Issue) m,
      assocLookup k (issues.foldl dictInsert m) =
        issues.foldl (fun acc i => if issueKey i = k then some i else acc)
          (assocLookup k m) := by
  intro issues
  induction issues with
  | nil => intro m; rfl
  | cons i rest ih =>
      intro m
      simp only [List.foldl_cons]
      rw [ih (dictInsert m i), assocLookup_dictInsert]

theorem mem_values_dictInsert {v i : Issue} :
    ∀ {m}, v ∈ (dictInsert m i).map (·.2) → v = i ∨ v ∈ m.map (·.2) := by
  intro m
  induction m with
  | nil => intro h; simp [dictInsert] at h; exact Or.inl h
  | cons e rest ih =>
      obtain ⟨k', w⟩ := e
      unfold dictInsert
      by_cases hk : k' = issueKey i
      · rw [if_pos hk]
        intro h
        rcases List.mem_cons.mp h with h | h
        · exact Or.inl h
        · exact Or.inr (List.mem_cons.mpr (Or.inr h))
      · rw [if_neg hk]
        intro h
        rcases List.mem_cons.mp h with h | h
        · exact Or.inr (List.mem_cons.mpr (Or.inl h))
        · rcases ih h with h | h
          · exact Or.inl h
          · exact Or.inr (List.mem_cons.mpr (Or.inr h))

theorem mem_values_foldl {v : Issue} :
    ∀ (issues : List Issue) m,
      v ∈ (issues.foldl dictInsert m).map (·.2) →
        v ∈ m.map (·.2) ∨ v ∈ issues := by
  intro issues
  induction issues with
  | nil => intro m h; exact Or.inl h
  | cons i rest ih =>
      intro m h
      simp only [List.foldl_cons] at h
      rcases ih (dictInsert m i) h with h | h
      · rcases mem_values_dictInsert h with h | h
        · exact Or.inr (List.mem_cons.mpr (Or.inl h))
        · exact Or.inl h
      · exact Or.inr (List.mem_cons.mpr (Or.inr h))

/-- Invariant of the modelled dict: every entry key is the fingerprint of
its value, and keys are pairwise distinct. -/
def entriesOk (m : List ((String × String × Nat × Nat × String) × Issue)) :
    Prop :=
  (∀ e ∈ m, e.1 = issueKey e.2) ∧ m.Pairwise (fun e f => e.1 ≠ f.1)

theorem entriesOk_nil : entriesOk [] := ⟨by simp, List.Pairwise.nil⟩

theorem keys_dictInsert {m : List ((String × String × Nat × Nat × String) × Issue)}
    {i : Issue} {k} (hk : k ∈ (dictInsert m i).map (·.1)) :
    k ∈ m.map (·.1) ∨ k = issueKey i := by
  induction m with
  | nil => simp [dictInsert] at hk; exact Or.inr hk
  | cons e rest ih =>
      obtain ⟨k', w⟩ := e
      unfold dictInsert at hk
      by_cases hke : k' = issueKey i
      · rw [if_pos hke] at hk
        rcases List.mem_cons.mp hk with h | h
        · exact Or.inl (List.mem_cons.mpr (Or.inl h))
        · exact Or.inl (List.mem_cons.mpr (Or.inr h))
      · rw [if_neg hke] at hk
        rcases List.mem_cons.mp hk with h | h
        · exact Or.inl (List.mem_cons.mpr (Or.inl h))
        · rcases ih h with h | h
          · exact Or.inl (List.mem_cons.mpr (Or.inr h))
          · exact Or.inr h

theorem entriesOk_dictInsert {m} (hm : entriesOk m) (i : Issue) :
    entriesOk (dictInsert m i) := by
  obtain ⟨hcoh, hdist⟩ := hm
  induction m with
  | nil =>
      exact ⟨by simp [dictInsert], by simp [dictInsert]⟩
  | cons e rest ih =>
      obtain ⟨k', w⟩ := e
      have hcoh' : ∀ e ∈ rest, e.1 = issueKey e.2 := by
        intro e he; exact hcoh e (List.mem_cons.mpr (Or.inr he))
      have hdist' := List.Pairwise.of_cons hdist
      unfold dictInsert
      by_cases hk : k' = issueKey i
      · rw [if_pos hk]
        constructor
        · intro e he
          rcases List.mem_cons.mp he with rfl | he
          · exact hk
          · exact hcoh' e he
        · refine List.Pairwise.cons ?_ hdist'
          intro f hf
          exact List.rel_of_pairwise_cons hdist hf
      · rw [if_neg hk]
        obtain ⟨ihcoh, ihdist⟩ := ih hcoh' hdist'
        constructor
        · intro e he
          rcases List.mem_cons.mp he with rfl | he
          · exact hcoh ⟨k', w⟩ (List.mem_cons.mpr (Or.inl rfl))
          · exact ihcoh e he
        · refine List.Pairwise.cons ?_ ihdist
          intro f hf
          have hf1 : f.1 ∈ (dictInsert rest i).map (·.1) :=
            List.mem_map.mpr ⟨f, hf, rfl⟩
          rcases keys_dictInsert hf1 with h | h
          · obtain ⟨g, hg, hgeq⟩ := List.mem_map.mp h
            have hrel := List.rel_of_pairwise_cons hdist hg
            rw [hgeq] at hrel
            exact hrel
          · rw [h]; exact hk

theorem entriesOk_foldl :
    ∀ (issues : List Issue) {m}, entriesOk m →
      entriesOk (issues.foldl dictInsert m) := by
  intro issues
  induction issues with
  | nil => intro m hm; exact hm
  | cons i rest ih =>
      intro m hm
      simp only [List.foldl_cons]
      exact ih (entriesOk_dictInsert hm i)

theorem assocLookup_self :
    ∀ {m}, entriesOk m → ∀ {v : Issue}, v ∈ m.map (·.2) →
      assocLookup (issueKey v) m = some v := by
  intro m
  induction m with
  | nil => intro _ v hv; simp at hv
  | cons e rest ih =>
      obtain ⟨k', w⟩ := e
      intro hm v hv
      obtain ⟨hcoh, hdist⟩ := hm
      have hk'w : k' = issueKey w :=
        hcoh ⟨k', w⟩ (List.mem_cons.mpr (Or.inl rfl))
      rcases List.mem_cons.mp hv with rfl | hv
      · simp [assocLookup, hk'w]
      · have hrest : entriesOk rest :=
          ⟨fun e he => hcoh e (List.mem_cons.mpr (Or.inr he)),
           List.Pairwise.of_cons hdist⟩
        have hne : ¬ k' = issueKey v := by
          intro hc
          obtain ⟨g, hg, hgeq⟩ := List.mem_map.mp hv
          have hrel := List.rel_of_pairwise_cons hdist hg
          have hgkey : g.1 = issueKey g.2 :=
            hcoh g (List.mem_cons.mpr (Or.inr hg))
          rw [hgkey, hgeq] at hrel
          exact hrel hc
        simp only [assocLookup, hne, if_false]
        exact ih hrest hv

theorem assocLookup_mem {k} :
    ∀ {m} {v : Issue}, assocLookup k m = some v → v ∈ m.map (·.2) := by
  intro m
  induction m with
  | nil => intro v h; simp [assocLookup] at h
  | cons e rest ih =>
      obtain ⟨k', w⟩ := e
      intro v h
      unfold assocLookup at h
      by_cases hk : k' = k
      · rw [if_pos hk] at h
        simp at h
        simp [h]
      · rw [if_neg hk] at h
        exact List.mem_cons.mpr (Or.inr (ih h))

theorem lastWithKey_of_mem {j : Issue} :
    ∀ {issues : List Issue}, j ∈ issues →
      ∃ i, lastWithKey (issueKey j) issues = some i ∧
        issueKey i = issueKey j := by
  have haux : ∀ (k : String × String × Nat × Nat × String)
      (issues : List Issue) (acc : Option Issue),
      (∀ v, acc = some v → issueKey v = k) →
      (acc ≠ none ∨ ∃ j ∈ issues, issueKey j = k) →
      ∃ i, issues.foldl
          (fun acc i => if issueKey i = k then some i else acc) acc = some i ∧
        issueKey i = k := by
    intro k issues
    induction issues with
    | nil =>
        intro acc hacc hne
        rcases hne with hne | ⟨j, hj, _⟩
        · cases hacc2 : acc with
          | none => exact absurd hacc2 hne
          | some v => exact ⟨v, by simp [hacc2], hacc v hacc2⟩
        · simp at hj
    | cons x rest ih =>
        intro acc hacc hne
        simp only [List.foldl_cons]
        by_cases hx : issueKey x = k
        · rw [if_pos hx]
          refine ih (some x) (fun v hv => by
            simp at hv; rw [← hv]; exact hx) (Or.inl (by simp))
        · rw [if_neg hx]
          refine ih acc hacc ?_
          rcases hne with hne | ⟨j, hj, hjk⟩
          · exact Or.inl hne
          · rcases List.mem_cons.mp hj with rfl | hj
            · exact absurd hjk hx
            · exact Or.inr ⟨j, hj, hjk⟩
  intro issues hj
  exact haux (issueKey j) issues none (by simp)
    (Or.inr ⟨j, hj, rfl⟩)

/-! ## The deduplication contract -/

theorem dedupe_mem_sub {l : List Issue} {i : Issue}
    (h : i ∈ dedupe_issues l) : i ∈ l := by
  unfold dedupe_issues at h
  have h1 : i ∈ (l.foldl dictInsert []).map (·.2) :=
    (sortLe_perm issueLeB _).mem_iff.mp h
  rcases mem_values_foldl l [] h1 with h2 | h2
  · simp at h2
  · exact h2

theorem dedupe_keys_distinct (l : List Issue) :
    (dedupe_issues l).Pairwise (fun a b => issueKey a ≠ issueKey b) := by
  unfold dedupe_issues
  have hok := entriesOk_foldl l entriesOk_nil
  obtain ⟨hcoh, hdist⟩ := hok
  have hvals : ((l.foldl dictInsert []).map (·.2)).Pairwise
      (fun a b => issueKey a ≠ issueKey b) := by
    rw [List.pairwise_map]
    refine hdist.imp_of_mem ?_
    intro e f he hf hne
    rw [← hcoh e he, ← hcoh f hf]
    exact hne
  exact ((sortLe_perm issueLeB _).pairwise_iff
    (fun h => Ne.symm h)).mpr hvals

theorem dedupe_sorted (l : List Issue) :
    (dedupe_issues l).Pairwise (fun a b => issueLeB a b = true) := by
  unfold dedupe_issues
  exact sortLe_sorted issueLeB issueLeB_total
    (fun a b c => issueLeB_trans) _

theorem dedupe_last_write_wins {l : List Issue} {i : Issue}
    (h : i ∈ dedupe_issues l) : lastWithKey (issueKey i) l = some i := by
  unfold dedupe_issues at h
  have h1 : i ∈ (l.foldl dictInsert []).map (·.2) :=
    (sortLe_perm issueLeB _).mem_iff.mp h
  have hok := entriesOk_foldl l entriesOk_nil
  have h2 : assocLookup (issueKey i) (l.foldl dictInsert []) = some i :=
    assocLookup_self hok h1
  rw [assocLookup_foldl] at h2
  simpa [lastWithKey, assocLookup] using h2

theorem dedupe_covers {l : List Issue} {j : Issue} (h : j ∈ l) :
    ∃ i ∈ dedupe_issues l, issueKey i = issueKey j := by
  obtain ⟨i, hlast, hkey⟩ := lastWithKey_of_mem h
  have h2 : assocLookup (issueKey j) (l.foldl dictInsert []) = some i := by
    rw [assocLookup_foldl]
    simpa [lastWithKey, assocLookup] using hlast
  have h3 : i ∈ (l.foldl dictInsert []).map (·.2) := assocLookup_mem h2
  refine ⟨i, ?_, hkey⟩
  unfold dedupe_issues
  exact (sortLe_perm issueLeB _).mem_iff.mpr h3

/-! ## Characterisation of the filter stage -/

theorem mem_filter_issues {iss : List Issue} {p : String}
    {en : Option (List String)} {dis : List String}
    {m : Nat → Option (List String)} {i : Issue} :
    i ∈ filter_issues iss p en dis m ↔
      ∃ i0 ∈ iss, i = { i0 with file_path := p } ∧
        i0.rule_id ∉ dis ∧
        (∀ l, en = some l → i0.rule_id ∈ l) ∧
        inlineSuppressed m i0.rule_id i0.line = false := by
  unfold filter_issues
  rw [List.mem_filterMap]
  constructor
  · rintro ⟨i0, hi0, hsome⟩
    simp only at hsome
    by_cases h1 : i0.rule_id ∈ dis
    · simp [h1] at hsome
    · cases en with
      | none =>
          by_cases h3 : inlineSuppressed m i0.rule_id i0.line = true
          · simp [h1, h3] at hsome
          · simp [h1, h3] at hsome
            refine ⟨i0, hi0, hsome.symm, h1, ?_, by simpa using h3⟩
            intro l hl
            cases hl
      | some allowed =>
          by_cases h2 : i0.rule_id ∈ allowed
          · by_cases h3 : inlineSuppressed m i0.rule_id i0.line = true
            · simp [h1, h2, h3] at hsome
            · simp [h1, h2, h3] at hsome
              refine ⟨i0, hi0, hsome.symm, h1, ?_, by simpa using h3⟩
              intro l hl
              injection hl with hl2
              rw [← hl2]
              exact h2
          · simp [h1, h2] at hsome
  · rintro ⟨i0, hi0, heq, h1, h2, h3⟩
    refine ⟨i0, hi0, ?_⟩
    cases en with
    | none => simp [h1, h3, heq]
    | some allowed => simp [h1, h2 allowed rfl, h3, heq]

theorem filter_issues_not_disabled {iss : List Issue} {p : String}
    {en : Option (List String)} {dis : List String}
    {m : Nat → Option (List String)} {i : Issue}
    (h : i ∈ filter_issues iss p en dis m) : i.rule_id ∉ dis := by
  obtain ⟨i0, _, heq, h1, _, _⟩ := mem_filter_issues.mp h
  rw [heq]
  exact h1

/-! ## C2: the disabled-rule set -/

/-- C2 (amended): for every rule id R in the disabled set other than
SS900, no Issue with rule_id R appears in the result, whatever files are
scanned, whatever the allow-list and inline suppression do; the disabled
check runs first in the filter.  The exception the code forces: the
synthetic SS900 read-error issue is appended without passing through
_filter_issues, so disabling SS900 does not suppress read-error issues
(see the counterexample). -/
theorem C2_disabled_rules_filter (cfg : ScanConfig) (R : String)
    (hR : R ∈ mkDisabledRuleSet cfg.disabled_rules) (hR900 : R ≠ "SS900") :
    (∀ root files i, i ∈ (scan_path_dir root cfg files).issues →
       i.rule_id ≠ R) ∧
    (∀ f i, i ∈ (scan_path_single cfg f).issues → i.rule_id ≠ R) := by
  constructor
  · intro root files i hi
    have hstream : i ∈ scanStreamDir root cfg files := dedupe_mem_sub hi
    unfold scanStreamDir at hstream
    rw [List.mem_flatten] at hstream
    obtain ⟨chunk, hchunk, hic⟩ := hstream
    rw [List.mem_map] at hchunk
    obtain ⟨f, _, rfl⟩ := hchunk
    unfold processFileDir at hic
    cases hres : f.result with
    | err msg =>
        rw [hres] at hic
        simp at hic
        rw [hic]
        intro hc
        exact hR900 hc.symm
    | ok engineIssues =>
        rw [hres] at hic
        intro hc
        exact (filter_issues_not_disabled hic) (hc ▸ hR)
  · intro f i hi
    have hstream : i ∈ scanStreamSingle cfg f := dedupe_mem_sub hi
    unfold scanStreamSingle processFileSingle at hstream
    cases hres : f.result with
    | err msg =>
        rw [hres] at hstream
        simp at hstream
        rw [hstream]
        intro hc
        exact hR900 hc.symm
    | ok engineIssues =>
        rw [hres] at hstream
        intro hc
        exact (filter_issues_not_disabled hstream) (hc ▸ hR)

/-- Concrete engine issue used by the C2 and C3 instances. -/
def sampleEvalIssue : Issue :=
  { rule_id := "SS001"
    title := "Dangerous dynamic execution"
    severity := "critical"
    message := "Avoid eval() because it executes dynamic code."
    file_path := "/tmp/a.py"
    line := 1
    column := 9 }

/-- Concrete file outcome whose engine run succeeds with one issue. -/
def sampleOkFile : FileOutcome :=
  { path := ["tmp", "a.py"]
    lines := ["value = eval(2+2)"]
    result := .ok [sampleEvalIssue] }

/-- Concrete file outcome whose engine read fails. -/
def sampleErrFile : FileOutcome :=
  { path := ["tmp", "a.py"]
    lines := []
    result := .err "boom" }

/-- Configuration disabling SS900 with no allow-list. -/
def cfgDisable900 : ScanConfig :=
  { enabled_rules := none
    disabled_rules := some ["SS900"]
    inline_ignore := true }

/-- Configuration disabling SS001 with no allow-list. -/
def cfgDisable001 : ScanConfig :=
  { enabled_rules := none
    disabled_rules := some ["SS001"]
    inline_ignore := true }

/-- C2 counterexample: with SS900 itself in the disabled set and one file
whose read fails, the scan result still contains an SS900 issue, because
the synthetic read-error issue is appended without filtering
(scanner.py lines 140 to 153).  The claim, which quantifies over every
disabled rule id and promises the result is free of it even when files
fail to be read, is therefore false at R = SS900. -/
theorem C2_counterexample_ss900_bypasses_disable :
    "SS900" ∈ mkDisabledRuleSet cfgDisable900.disabled_rules ∧
    (ss900Issue "a.py" "boom") ∈
      (scan_path_dir ["tmp"] cfgDisable900 [sampleErrFile]).issues ∧
    (ss900Issue "a.py" "boom").rule_id = "SS900" := by
  refine ⟨by decide, by decide, rfl⟩

/-- C2 witness: the amended theorem applied at a concrete configuration
disabling SS001 over a concrete scan containing an SS001-producing file. -/
theorem C2_disabled_rules_filter_witness :
    ("SS001" ∈ mkDisabledRuleSet cfgDisable001.disabled_rules) ∧
    ∀ i, i ∈ (scan_path_dir ["tmp"] cfgDisable001 [sampleOkFile]).issues →
      i.rule_id ≠ "SS001" :=
  ⟨by decide,
   fun i hi =>
     (C2_disabled_rules_filter cfgDisable001 "SS001" (by decide)
       (by decide)).1 ["tmp"] [sampleOkFile] i hi⟩

/-! ## C3: uniqueness, last-write-wins and ordering of the result -/

/-- C3: the returned issue list holds at most one Issue per fingerprint
(file_path, rule_id, line, column, message); among issues sharing a
fingerprint the last-written one is kept; and the list is non-decreasing
under the key (file_path, line, column, rule_id).  Stated for the
deduplication stage over an arbitrary pre-deduplication stream, together
with the fact that both scan entry points return exactly the deduplicated
stream. -/
theorem C3_dedupe_unique_lastwins_sorted :
    (∀ stream : List Issue,
      (dedupe_issues stream).Pairwise
        (fun a b => issueKey a ≠ issueKey b) ∧
      (dedupe_issues stream).Pairwise (fun a b => issueLeB a b = true) ∧
      (∀ i ∈ dedupe_issues stream,
        lastWithKey (issueKey i) stream = some i) ∧
      (∀ j ∈ stream, ∃ i ∈ dedupe_issues stream,
        issueKey i = issueKey j)) ∧
    (∀ root cfg files, (scan_path_dir root cfg files).issues =
      dedupe_issues (scanStreamDir root cfg files)) ∧
    (∀ cfg f, (scan_path_single cfg f).issues =
      dedupe_issues (scanStreamSingle cfg f)) := by
  refine ⟨?_, fun _ _ _ => rfl, fun _ _ => rfl⟩
  intro stream
  exact ⟨dedupe_keys_distinct stream, dedupe_sorted stream,
    fun i hi => dedupe_last_write_wins hi,
    fun j hj => dedupe_covers hj⟩

/-- C3 witness: the contract applied to a concrete stream holding a
duplicated fingerprint; the kept issue is the last written one. -/
theorem C3_dedupe_witness :
    sampleEvalIssue ∈ dedupe_issues [sampleEvalIssue, sampleEvalIssue] ∧
    lastWithKey (issueKey sampleEvalIssue)
      [sampleEvalIssue, sampleEvalIssue] = some sampleEvalIssue :=
  ⟨by decide,
   (C3_dedupe_unique_lastwins_sorted.1
     [sampleEvalIssue, sampleEvalIssue]).2.2.1 sampleEvalIssue (by decide)⟩

/-! ## C6: the orchestrator rewrites only file_path -/

/-- C6 (amended): every issue a scan returns is either the synthetic
SS900 read-error issue of a failing file, or an engine issue with every
field except file_path exactly as the engine emitted it and file_path
rewritten; on a directory root the rewritten value is the path relative
to the resolved root with fallback to the unmodified str(path) when the
root does not lead it, while on a single-file root the code uses the bare
file name instead of a root-relative path (scanner.py lines 100, 109,
141, 157 and 170 to 174). -/
theorem C6_filepath_rewrite_frame (root : List String) (cfg : ScanConfig)
    (files : List FileOutcome) (f0 : FileOutcome) :
    (∀ i ∈ (scan_path_dir root cfg files).issues,
      (∃ f ∈ files, ∃ msg, f.result = .err msg ∧
        i = ss900Issue (relative_path f.path root) msg) ∨
      (∃ f ∈ files, ∃ es e, f.result = .ok es ∧ e ∈ es ∧
        i = { e with file_path := relative_path f.path root })) ∧
    (∀ i ∈ (scan_path_single cfg f0).issues,
      (∃ msg, f0.result = .err msg ∧
        i = ss900Issue (pathName f0.path) msg) ∨
      (∃ es e, f0.result = .ok es ∧ e ∈ es ∧
        i = { e with file_path := pathName f0.path })) := by
  constructor
  · intro i hi
    have hstream : i ∈ scanStreamDir root cfg files := dedupe_mem_sub hi
    unfold scanStreamDir at hstream
    rw [List.mem_flatten] at hstream
    obtain ⟨chunk, hchunk, hic⟩ := hstream
    rw [List.mem_map] at hchunk
    obtain ⟨f, hf, rfl⟩ := hchunk
    unfold processFileDir at hic
    cases hres : f.result with
    | err msg =>
        rw [hres] at hic
        simp at hic
        exact Or.inl ⟨f, hf, msg, hres, hic⟩
    | ok engineIssues =>
        rw [hres] at hic
        obtain ⟨e, he, heq, _, _, _⟩ := mem_filter_issues.mp hic
        exact Or.inr ⟨f, hf, engineIssues, e, hres, he, heq⟩
  · intro i hi
    have hstream : i ∈ scanStreamSingle cfg f0 := dedupe_mem_sub hi
    unfold scanStreamSingle processFileSingle at hstream
    cases hres : f0.result with
    | err msg =>
        rw [hres] at hstream
        simp at hstream
        exact Or.inl ⟨msg, rfl, hstream⟩
    | ok engineIssues =>
        rw [hres] at hstream
        obtain ⟨e, he, heq, _, _, _⟩ := mem_filter_issues.mp hstream
        exact Or.inr ⟨engineIssues, e, rfl, he, heq⟩

/-- Configuration with every filter off except the defaults. -/
def cfgDefault : ScanConfig :=
  { enabled_rules := none
    disabled_rules := none
    inline_ignore := true }

/-- C6 counterexample: on a single-file root the rewritten file_path is
the bare name, which is neither the path relative to the resolved scan
root (pathlib renders that as ".") nor the unmodified engine-emitted
path, so the claimed rewrite target is wrong for single-file roots. -/
theorem C6_counterexample_single_file_root :
    ((scan_path_single cfgDefault sampleOkFile).issues.map
      (fun i => i.file_path)) = ["a.py"] ∧
    relative_path sampleOkFile.path sampleOkFile.path = "." ∧
    ("a.py" : String) ≠ "." ∧
    ("a.py" : String) ≠ sampleEvalIssue.file_path := by
  refine ⟨by decide, by decide, by decide, by decide⟩

/-- C6 witness: the frame theorem applied to a concrete directory scan;
the surviving issue is the engine issue with only file_path changed. -/
theorem C6_filepath_rewrite_frame_witness :
    ∀ i ∈ (scan_path_dir ["tmp"] cfgDefault [sampleOkFile]).issues,
      (∃ f ∈ [sampleOkFile], ∃ msg, f.result = .err msg ∧
        i = ss900Issue (relative_path f.path ["tmp"]) msg) ∨
      (∃ f ∈ [sampleOkFile], ∃ es e, f.result = .ok es ∧ e ∈ es ∧
        i = { e with file_path := relative_path f.path ["tmp"] }) :=
  fun i hi =>
    (C6_filepath_rewrite_frame ["tmp"] cfgDefault [sampleOkFile]
      sampleOkFile).1 i hi

/-! ## C10: an empty enabled-rule list is no allow-list -/

/-- C10: passing an empty enabled-rules list is identical to passing no
allow-list at all, because Python truthiness collapses the empty list to
None (scanner.py line 73); in particular no issue is dropped by the
enabled check, rather than every issue being dropped: with no disabled
rules and no suppression the filter keeps every issue, only rewriting its
file_path. -/
theorem C10_empty_enabled_allowlist :
    mkEnabledRuleSet (some []) = mkEnabledRuleSet none ∧
    (∀ root dis ii files,
      scan_path_dir root
        { enabled_rules := some [], disabled_rules := dis,
          inline_ignore := ii } files =
      scan_path_dir root
        { enabled_rules := none, disabled_rules := dis,
          inline_ignore := ii } files) ∧
    (∀ dis ii f,
      scan_path_single
        { enabled_rules := some [], disabled_rules := dis,
          inline_ignore := ii } f =
      scan_path_single
        { enabled_rules := none, disabled_rules := dis,
          inline_ignore := ii } f) ∧
    (∀ iss p dis m, filter_issues iss p (mkEnabledRuleSet (some [])) dis m =
      filter_issues iss p none dis m) ∧
    (∀ iss p, filter_issues iss p (mkEnabledRuleSet (some [])) []
        (fun _ => none) =
      iss.map (fun i0 => { i0 with file_path := p })) := by
  have hproc : ∀ root dis ii f,
      processFileDir root
        { enabled_rules := some [], disabled_rules := dis,
          inline_ignore := ii } f =
      processFileDir root
        { enabled_rules := none, disabled_rules := dis,
          inline_ignore := ii } f := by
    intro root dis ii f
    cases hres : f.result <;>
      simp [processFileDir, hres, mkEnabledRuleSet, inlineMapFor]
  have hprocS : ∀ dis ii f,
      processFileSingle
        { enabled_rules := some [], disabled_rules := dis,
          inline_ignore := ii } f =
      processFileSingle
        { enabled_rules := none, disabled_rules := dis,
          inline_ignore := ii } f := by
    intro dis ii f
    cases hres : f.result <;>
      simp [processFileSingle, hres, mkEnabledRuleSet, inlineMapFor]
  refine ⟨rfl, ?_, ?_, fun _ _ _ _ => rfl, ?_⟩
  · intro root dis ii files
    unfold scan_path_dir scanStreamDir
    rw [funext (hproc root dis ii)]
  · intro dis ii f
    unfold scan_path_single scanStreamSingle
    rw [hprocS dis ii f]
  · intro iss p
    induction iss with
    | nil => rfl
    | cons i0 rest ih =>
        simp only [filter_issues, List.filterMap_cons, List.map_cons] at ih ⊢
        simp [inlineSuppressed, mkEnabledRuleSet] at ih ⊢
        exact ih

/-! ## C4: inline suppression semantics -/

theorem mem_firstDedup [DecidableEq α] {x : α} :
    ∀ {l : List α}, x ∈ firstDedup l → x ∈ l := by
  intro l
  induction l with
  | nil => intro h; simp [firstDedup] at h
  | cons y ys ih =>
      intro h
      unfold firstDedup at h
      rcases List.mem_cons.mp h with rfl | h
      · exact List.mem_cons.mpr (Or.inl rfl)
      · exact List.mem_cons.mpr (Or.inr (ih (List.mem_filter.mp h).1))

theorem mem_splitOnSep {sep c : Char} :
    ∀ {l : List Char} {part}, part ∈ splitOnSep sep l → c ∈ part → c ∈ l := by
  intro l
  induction l with
  | nil =>
      intro part hp hc
      simp [splitOnSep] at hp
      rw [hp] at hc
      simp at hc
  | cons d rest ih =>
      intro part hp hc
      unfold splitOnSep at hp
      by_cases hd : d = sep
      · rw [if_pos hd] at hp
        rcases List.mem_cons.mp hp with rfl | hp
        · simp at hc
        · exact List.mem_cons.mpr (Or.inr (ih hp hc))
      · rw [if_neg hd] at hp
        cases hsp : splitOnSep sep rest with
        | nil =>
            rw [hsp] at hp
            simp at hp
            rw [hp] at hc
            rcases List.mem_cons.mp hc with rfl | hc
            · exact List.mem_cons.mpr (Or.inl rfl)
            · simp at hc
        | cons p ps =>
            rw [hsp] at hp
            rcases List.mem_cons.mp hp with rfl | hp
            · rcases List.mem_cons.mp hc with rfl | hc
              · exact List.mem_cons.mpr (Or.inl rfl)
              · refine List.mem_cons.mpr (Or.inr (ih ?_ hc))
                rw [hsp]
                exact List.mem_cons.mpr (Or.inl rfl)
            · refine List.mem_cons.mpr (Or.inr (ih ?_ hc))
              rw [hsp]
              exact List.mem_cons.mpr (Or.inr hp)

theorem mem_stripChars {c : Char} {l : List Char}
    (h : c ∈ stripChars l) : c ∈ l := by
  unfold stripChars at h
  have h1 := List.mem_reverse.mp h
  have h2 := (List.dropWhile_sublist isPySpace).mem h1
  have h3 := List.mem_reverse.mp h2
  exact (List.dropWhile_sublist isPySpace).mem h3

theorem toUpper_ne_star {d : Char} (hd : isIgnoreClassChar d = true) :
    d.toUpper ≠ '*' := by
  intro hc
  have hgen : ∀ n : Nat, 97 ≤ n → n ≤ 122 →
      Char.ofNat (n - 32) ≠ '*' := by
    intro n h1 h2
    interval_cases n <;> decide
  simp only [Char.toUpper] at hc
  by_cases h : d.toNat ≥ 97 ∧ d.toNat ≤ 122
  · rw [if_pos h] at hc
    exact hgen d.toNat h.1 h.2 hc
  · rw [if_neg h] at hc
    rw [hc] at hd
    simp [isIgnoreClassChar] at hd

theorem searchIgnore_group_class {L s : String}
    (h : searchIgnore L = some (some s)) :
    s.data.all isIgnoreClassChar = true := by
  unfold searchIgnore at h
  cases hf : findSubIdx ignoreMarker (L.data.map Char.toLower) with
  | none => rw [hf] at h; cases h
  | some i =>
      rw [hf] at h
      injection h with h
      unfold captureAfterMarker at h
      by_cases hm : countLeading isPySpace
          (L.data.drop (i + ignoreMarker.length)) = 0
      · rw [if_pos hm] at h; cases h
      · rw [if_neg hm] at h
        cases htw : ((L.data.drop (i + ignoreMarker.length)).drop
            (countLeading isPySpace
              (L.data.drop (i + ignoreMarker.length)))).takeWhile
            isIgnoreClassChar with
        | cons c run =>
            rw [htw] at h
            injection h with h
            rw [← h]
            have hall := @List.all_takeWhile Char isIgnoreClassChar
              ((L.data.drop (i + ignoreMarker.length)).drop
                (countLeading isPySpace
                  (L.data.drop (i + ignoreMarker.length))))
            rw [htw] at hall
            exact hall
        | nil =>
            rw [htw] at h
            by_cases hsp : ((List.range (countLeading isPySpace
                (L.data.drop (i + ignoreMarker.length)))).any
                (fun a => decide (1 ≤ a) &&
                  decide (((L.data.drop
                    (i + ignoreMarker.length)).drop a).headD '\n' = ' '))) = true
            · rw [if_pos hsp] at h
              injection h with h
              rw [← h]
              decide
            · rw [if_neg hsp] at h
              cases h

theorem star_not_mem_tokens {s : String}
    (hcls : s.data.all isIgnoreClassChar = true) {t : String}
    (ht : t ∈ ((splitOnSep ',' s.data).map
      (fun t => upperStr ⟨stripChars t⟩)).filter (· ≠ "")) :
    t ≠ "*" := by
  intro hstar
  rw [List.mem_filter] at ht
  obtain ⟨htm, _⟩ := ht
  rw [List.mem_map] at htm
  obtain ⟨part, hpart, hteq⟩ := htm
  have hstar_mem : '*' ∈ t.data := by rw [hstar]; decide
  rw [← hteq] at hstar_mem
  simp only [upperStr, List.mem_map] at hstar_mem
  obtain ⟨d, hd, hdeq⟩ := hstar_mem
  have hd2 : d ∈ part := mem_stripChars hd
  have hd3 : d ∈ s.data := mem_splitOnSep hpart hd2
  have hd4 : isIgnoreClassChar d = true := by
    rw [List.all_eq_true] at hcls
    exact hcls d hd3
  exact toUpper_ne_star hd4 hdeq

theorem star_not_mem_parseIgnoreGroup {s : String}
    (hcls : s.data.all isIgnoreClassChar = true)
    (hne : parseIgnoreGroup (some s) ≠ ["*"]) :
    "*" ∉ parseIgnoreGroup (some s) := by
  intro hmem
  simp only [parseIgnoreGroup] at hmem hne
  by_cases hempty : (firstDedup (((splitOnSep ',' s.data).map
      (fun t => upperStr ⟨stripChars t⟩)).filter (· ≠ ""))).isEmpty = true
  · rw [if_pos hempty] at hne
    exact hne rfl
  · rw [if_neg hempty] at hmem
    exact star_not_mem_tokens hcls (mem_firstDedup hmem) rfl

/-- C4: with inline suppression enabled, an engine issue anchored on a
source line whose suppression marker carries no rule list is always
dropped; one anchored on a line whose marker carries a rule list that
parses to at least one id (stripped, uppercased, comma-separated) is
dropped exactly when its rule id is among the parsed ids.  Stated over
the filter stage with no disabled set and no allow-list, which isolates
the suppression check of scanner.py lines 216 to 218 over the map built
by _get_inline_ignore_map. -/
theorem C4_inline_suppression (lines : List String) (p : String)
    (iss : List Issue) (e : Issue) (he : e ∈ iss)
    (L : String) (hn0 : e.line ≠ 0)
    (hL : lines.get? (e.line - 1) = some L) :
    (searchIgnore L = some none →
      { e with file_path := p } ∉
        filter_issues iss p none [] (getInlineIgnoreMap lines)) ∧
    (∀ s, searchIgnore L = some (some s) →
      parseIgnoreGroup (some s) ≠ ["*"] →
      ({ e with file_path := p } ∈
          filter_issues iss p none [] (getInlineIgnoreMap lines) ↔
        e.rule_id ∉ parseIgnoreGroup (some s))) := by
  have hmap : ∀ g, searchIgnore L = some g →
      getInlineIgnoreMap lines e.line = some (parseIgnoreGroup g) := by
    intro g hg
    unfold getInlineIgnoreMap
    rw [if_neg hn0, hL]
    show Option.map parseIgnoreGroup (searchIgnore L) = some (parseIgnoreGroup g)
    rw [hg]
    rfl
  constructor
  · intro hsearch hmem
    obtain ⟨i0, _, heq, _, _, hsup⟩ := mem_filter_issues.mp hmem
    have hrid : i0.rule_id = e.rule_id := by
      have := congrArg Issue.rule_id heq
      simpa using this.symm
    have hline : i0.line = e.line := by
      have := congrArg Issue.line heq
      simpa using this.symm
    rw [hrid, hline] at hsup
    unfold inlineSuppressed at hsup
    rw [hmap none hsearch] at hsup
    simp [parseIgnoreGroup] at hsup
  · intro s hsearch hne
    have hstar : "*" ∉ parseIgnoreGroup (some s) :=
      star_not_mem_parseIgnoreGroup (searchIgnore_group_class hsearch) hne
    constructor
    · intro hmem hin
      obtain ⟨i0, _, heq, _, _, hsup⟩ := mem_filter_issues.mp hmem
      have hrid : i0.rule_id = e.rule_id := by
        have := congrArg Issue.rule_id heq
        simpa using this.symm
      have hline : i0.line = e.line := by
        have := congrArg Issue.line heq
        simpa using this.symm
      rw [hrid, hline] at hsup
      unfold inlineSuppressed at hsup
      rw [hmap (some s) hsearch] at hsup
      simp [hin] at hsup
    · intro hnotin
      refine mem_filter_issues.mpr ⟨e, he, rfl, by simp, ?_, ?_⟩
      · intro l hl; cases hl
      · unfold inlineSuppressed
        rw [hmap (some s) hsearch]
        simp [hstar, hnotin]

/-- Source line used by the C4 witness. -/
def c4Line : String := "value = eval(2+2)  # supersonar:ignore SS001"

/-- C4 witness: the theorem applied to a concrete file whose only line
suppresses SS001 inline; the concrete engine issue on that line is
dropped by the filter stage. -/
theorem C4_inline_suppression_witness :
    { sampleEvalIssue with file_path := "a.py" } ∉
      filter_issues [sampleEvalIssue] "a.py" none []
        (getInlineIgnoreMap [c4Line]) :=
  fun hmem =>
    (((C4_inline_suppression [c4Line] "a.py" [sampleEvalIssue]
        sampleEvalIssue (by decide) c4Line (by decide) (by decide)).2
      "SS001" (by decide) (by decide)).mp hmem) (by decide)

/-! ## C7: the duplicate-block detector
(src/supersonar/rules/generic.py lines 25, 26 and 357 to 394) -/

/-- Accumulating word splitter: groups maximal runs of non-whitespace
characters, dropping the whitespace. -/
def wordsAux : List Char → List Char → List (List Char)
  | cur, [] => if cur.isEmpty then [] else [cur.reverse]
  | cur, c :: rest =>
      if isPySpace c then
        if cur.isEmpty then wordsAux [] rest
        else cur.reverse :: wordsAux [] rest
      else wordsAux (c :: cur) rest

/-- Single spaces between words. -/
def joinWordsSp : List (List Char) → List Char
  | [] => []
  | [w] => w
  | w :: rest => w ++ ' ' :: joinWordsSp rest

/-- Models re.sub(r"bs+", " ", line).strip() of generic.py line 362:
every maximal whitespace run collapses to one space and the ends are
trimmed, which is exactly the single-space join of the whitespace-split
words of the line. -/
def normalizeLine (s : String) : String :=
  ⟨joinWordsSp (wordsAux [] s.data)⟩

/-- The window of 4 normalized lines starting at 0-based index idx. -/
def chunkAt (norm : List String) (idx : Nat) : List String :=
  (norm.drop idx).take 4

/-- Models "backslash-n".join(chunk) of generic.py line 370. -/
def joinNL (chunk : List String) : String :=
  joinWith "\n" chunk

/-- The issue of generic.py lines 378 to 391. -/
def dupIssue (fp : String) (firstLine lineNo : Nat) : Issue :=
  { rule_id := "SS105"
    title := "Duplicated code block"
    severity := "medium"
    message := "Repeated 4-line block detected (first seen near line "
      ++ natToStr firstLine ++ ")."
    file_path := fp
    line := lineNo
    column := 1 }

/-- The (key, start line) pairs the window loop of lines 364 to 371
inserts, in loop order: windows containing an empty normalized line or
whose combined length is under 80 are skipped. -/
def windowPairs (norm : List String) : List (String × Nat) :=
  (List.range (norm.length - 3)).filterMap (fun idx =>
    if (chunkAt norm idx).any (fun part => part.isEmpty) then none
    else if ((chunkAt norm idx).map String.length).sum < 80 then none
    else some (joinNL (chunkAt norm idx), idx + 1))

/-- Models dict.setdefault(key, []).append(value): the value joins the
list of an existing key in place, a new key goes to the end. -/
def setdefaultAppend :
    List (String × List Nat) → String → Nat → List (String × List Nat)
  | [], k, v => [(k, [v])]
  | (k', vs) :: rest, k, v =>
      if k' = k then (k', vs ++ [v]) :: rest
      else (k', vs) :: setdefaultAppend rest k v

/-- The windows dict of generic.py lines 363 to 371, as an association
list in key insertion order. -/
def buildWindows (norm : List String) : List (String × List Nat) :=
  (windowPairs norm).foldl (fun acc kv => setdefaultAppend acc kv.1 kv.2) []

/-- The inner loop of lines 377 to 393: one issue per repeat occurrence,
with the early return at the findings cap of 20. -/
def emitRepeats (fp : String) (firstLine : Nat) :
    List Nat → List Issue → List Issue
  | [], issues => issues
  | ln :: rest, issues =>
      let issues2 := issues ++ [dupIssue fp firstLine ln]
      if 20 ≤ issues2.length then issues2
      else emitRepeats fp firstLine rest issues2

/-- The outer loop of lines 374 to 393 over the dict values in key
insertion order, skipping singleton groups. -/
def dupLoop (fp : String) :
    List (String × List Nat) → List Issue → List Issue
  | [], issues => issues
  | (_, occs) :: rest, issues =>
      if occs.length < 2 then dupLoop fp rest issues
      else
        let issues2 := emitRepeats fp (occs.headD 0) occs.tail issues
        if 20 ≤ issues2.length then issues2
        else dupLoop fp rest issues2

/-- Models GenericRuleEngine._find_duplicate_blocks on the splitlines
decomposition of the file text. -/
def find_duplicate_blocks (fp : String) (lines : List String) :
    List Issue :=
  if lines.length < 8 then []
  else dupLoop fp (buildWindows (lines.map normalizeLine)) []

/-! The following definitions restate the detector from the words of the
specification (sliding windows, noise filters, one issue per repeat
occurrence of a window content, cap), to be compared with the code
translation above. -/

/-- Spec side: index idx starts a valid window when four normalized lines
exist from it, none is empty, and their combined length reaches the
noise threshold. -/
def specValidStart (lines : List String) (idx : Nat) : Bool :=
  decide (idx + 4 ≤ lines.length) &&
  !((chunkAt (lines.map normalizeLine) idx).any
      (fun part => part.isEmpty)) &&
  decide (80 ≤ ((chunkAt (lines.map normalizeLine) idx).map
      String.length).sum)

/-- Spec side: the content of the window starting at idx. -/
def specContentAt (lines : List String) (idx : Nat) : String :=
  joinNL (chunkAt (lines.map normalizeLine) idx)

/-- Spec side: the 1-based start lines of the valid windows carrying a
given content, in order. -/
def specStartsOf (lines : List String) (content : String) : List Nat :=
  ((List.range lines.length).filter (fun idx =>
    specValidStart lines idx &&
      decide (specContentAt lines idx = content))).map (· + 1)

/-- Spec side: the distinct window contents in order of first valid
occurrence. -/
def specContents (lines : List String) : List String :=
  firstDedup (((List.range lines.length).filter
    (specValidStart lines)).map (specContentAt lines))

/-- Spec side: for every window content occurring 2 or more times, one
issue per repeat occurrence (none for the first), anchored at the repeat
start line and referencing the first occurrence, capped at 20 findings. -/
def duplicateIssuesSpec (fp : String) (lines : List String) :
    List Issue :=
  (((specContents lines).filter
      (fun c => 2 ≤ (specStartsOf lines c).length)).flatMap
    (fun c => ((specStartsOf lines c).tail).map
      (dupIssue fp ((specStartsOf lines c).headD 0)))).take 20

/-! ## C7 lemma layer: generic list facts -/

theorem filterMap_ite_eq_filter_map {α β : Type} (p : α → Bool)
    (g : α → β) :
    ∀ l : List α,
      (l.filterMap (fun x => if p x then some (g x) else none)) =
        (l.filter p).map g := by
  intro l
  induction l with
  | nil => rfl
  | cons x xs ih =>
      by_cases hx : p x
      · simp [List.filterMap_cons, List.filter_cons, hx, ih]
      · simp [List.filterMap_cons, List.filter_cons, hx, ih]

theorem flatMap_filter_eq_flatMap_ite {α β : Type} (p : α → Bool)
    (f : α → List β) :
    ∀ l : List α,
      (l.filter p).flatMap f =
        l.flatMap (fun x => if p x then f x else []) := by
  intro l
  induction l with
  | nil => rfl
  | cons x xs ih =>
      by_cases hx : p x
      · simp [List.filter_cons, hx, ih]
      · simp [List.filter_cons, hx, ih]

theorem mem_firstDedup_iff [DecidableEq α] {x : α} :
    ∀ {l : List α}, x ∈ firstDedup l ↔ x ∈ l := by
  intro l
  induction l with
  | nil => simp [firstDedup]
  | cons y ys ih =>
      constructor
      · exact mem_firstDedup
      · intro h
        rcases List.mem_cons.mp h with rfl | h
        · exact List.mem_cons.mpr (Or.inl rfl)
        · by_cases hxy : x = y
          · exact List.mem_cons.mpr (Or.inl hxy)
          · refine List.mem_cons.mpr (Or.inr ?_)
            rw [List.mem_filter]
            exact ⟨ih.mpr h, by simpa using hxy⟩

theorem firstDedup_nodup [DecidableEq α] :
    ∀ l : List α, (firstDedup l).Nodup := by
  intro l
  induction l with
  | nil => simp [firstDedup]
  | cons y ys ih =>
      unfold firstDedup
      refine List.Pairwise.cons ?_ (List.Nodup.filter _ ih)
      intro z hz
      have := (List.mem_filter.mp hz).2
      simp at this
      exact fun hc => this hc.symm

theorem firstDedup_append_single [DecidableEq α] (k : α) :
    ∀ l : List α, firstDedup (l ++ [k]) =
      if k ∈ l then firstDedup l else firstDedup l ++ [k] := by
  intro l
  induction l with
  | nil => simp [firstDedup]
  | cons x xs ih =>
      simp only [List.cons_append, firstDedup]
      rw [List.append_eq, ih]
      by_cases hk : k ∈ xs
      · rw [if_pos hk, if_pos (List.mem_cons.mpr (Or.inr hk))]
      · by_cases hkx : k = x
        · rw [if_neg hk, if_pos (List.mem_cons.mpr (Or.inl hkx))]
          rw [List.filter_append]
          simp [hkx]
        · have hk2 : k ∉ x :: xs := by
            intro hc
            rcases List.mem_cons.mp hc with h | h
            · exact hkx h
            · exact hk h
          rw [if_neg hk, if_neg hk2]
          rw [List.filter_append]
          simp [hkx]

/-! ## C7 lemma layer: the dict fold -/

/-- Occurrence list a key holds after the pairs ps have been inserted. -/
def valsOf (k : String) (ps : List (String × Nat)) : List Nat :=
  (ps.filter (fun q => q.1 = k)).map (·.2)

/-- Canonical form of the windows dict built from the pairs ps: keys in
first-occurrence order, each carrying its occurrence list. -/
def canonWindows (ps : List (String × Nat)) : List (String × List Nat) :=
  (firstDedup (ps.map (·.1))).map (fun k => (k, valsOf k ps))

theorem valsOf_append_single (k k' : String) (v : Nat)
    (ps : List (String × Nat)) :
    valsOf k' (ps ++ [(k, v)]) =
      valsOf k' ps ++ (if k' = k then [v] else []) := by
  unfold valsOf
  rw [List.filter_append]
  by_cases hk : k' = k
  · simp [hk]
  · have : ¬ (k = k') := fun hc => hk hc.symm
    simp [hk, this]

theorem valsOf_eq_nil_of_not_mem {k : String} {ps : List (String × Nat)}
    (h : k ∉ ps.map (·.1)) : valsOf k ps = [] := by
  unfold valsOf
  rw [List.map_eq_nil_iff, List.filter_eq_nil_iff]
  intro q hq hqk
  simp at hqk
  exact h (List.mem_map.mpr ⟨q, hq, hqk⟩)

theorem setdefault_mem {keys : List String} (g : String → List Nat)
    (k : String) (v : Nat) (hnd : keys.Nodup) (hk : k ∈ keys) :
    setdefaultAppend (keys.map (fun k' => (k', g k'))) k v =
      keys.map (fun k' => (k', g k' ++ if k' = k then [v] else [])) := by
  induction keys with
  | nil => simp at hk
  | cons k0 rest ih =>
      simp only [List.map_cons, setdefaultAppend]
      by_cases hk0 : k0 = k
      · rw [if_pos hk0]
        have hknotin : k ∉ rest := by
          rw [← hk0]
          exact (List.nodup_cons.mp hnd).1
        simp only [hk0, if_pos rfl, List.cons.injEq, true_and]
        constructor
        · rfl
        · refine (List.map_congr_left ?_).symm
          intro a ha
          have : a ≠ k := fun hc => hknotin (hc ▸ ha)
          simp [this]
      · rw [if_neg hk0]
        have hkrest : k ∈ rest := by
          rcases List.mem_cons.mp hk with h | h
          · exact absurd h.symm hk0
          · exact h
        rw [ih (List.nodup_cons.mp hnd).2 hkrest]
        have : ¬ (k0 = k) := hk0
        simp [this]

theorem setdefault_not_mem {keys : List String} (g : String → List Nat)
    (k : String) (v : Nat) (hk : k ∉ keys) :
    setdefaultAppend (keys.map (fun k' => (k', g k'))) k v =
      keys.map (fun k' => (k', g k')) ++ [(k, [v])] := by
  induction keys with
  | nil => rfl
  | cons k0 rest ih =>
      simp only [List.map_cons, setdefaultAppend]
      have hk0 : ¬ (k0 = k) := by
        intro hc
        exact hk (List.mem_cons.mpr (Or.inl hc.symm))
      rw [if_neg hk0]
      have hkrest : k ∉ rest := fun hc =>
        hk (List.mem_cons.mpr (Or.inr hc))
      rw [ih hkrest]
      rfl

theorem setdefault_canon (ps : List (String × Nat)) (k : String)
    (v : Nat) :
    setdefaultAppend (canonWindows ps) k v =
      canonWindows (ps ++ [(k, v)]) := by
  unfold canonWindows
  rw [List.map_append]
  simp only [List.map_cons, List.map_nil]
  rw [firstDedup_append_single]
  by_cases hk : k ∈ ps.map (·.1)
  · rw [if_pos hk]
    have hkd : k ∈ firstDedup (ps.map (·.1)) := mem_firstDedup_iff.mpr hk
    rw [setdefault_mem (fun k' => valsOf k' ps) k v
      (firstDedup_nodup _) hkd]
    refine List.map_congr_left ?_
    intro a _
    rw [valsOf_append_single]
  · rw [if_neg hk]
    rw [setdefault_not_mem (fun k' => valsOf k' ps) k v
      (fun hc => hk (mem_firstDedup_iff.mp hc))]
    rw [List.map_append]
    simp only [List.map_cons, List.map_nil]
    congr 1
    · refine List.map_congr_left ?_
      intro a ha
      rw [valsOf_append_single]
      have hak : a ≠ k := fun hc => hk (hc ▸ mem_firstDedup_iff.mp ha)
      simp [hak]
    · rw [valsOf_append_single, valsOf_eq_nil_of_not_mem hk]
      simp

theorem foldl_setdefault_canon :
    ∀ (ps ps0 : List (String × Nat)),
      ps.foldl (fun acc kv => setdefaultAppend acc kv.1 kv.2)
          (canonWindows ps0) =
        canonWindows (ps0 ++ ps) := by
  intro ps
  induction ps with
  | nil => intro ps0; simp
  | cons q rest ih =>
      intro ps0
      simp only [List.foldl_cons]
      rw [setdefault_canon ps0 q.1 q.2]
      have := ih (ps0 ++ [(q.1, q.2)])
      simpa using this

theorem buildWindows_eq_canon (norm : List String) :
    buildWindows norm = canonWindows (windowPairs norm) := by
  unfold buildWindows
  have h0 : canonWindows [] = [] := rfl
  have := foldl_setdefault_canon (windowPairs norm) []
  rw [h0] at this
  simpa using this

/-! ## C7 lemma layer: the window pair stream matches the spec filter -/

theorem windowPairs_eq_spec (lines : List String) :
    windowPairs (lines.map normalizeLine) =
      ((List.range lines.length).filter (specValidStart lines)).map
        (fun idx => (specContentAt lines idx, idx + 1)) := by
  rw [← filterMap_ite_eq_filter_map (specValidStart lines)
    (fun idx => (specContentAt lines idx, idx + 1))]
  unfold windowPairs
  rw [List.length_map]
  by_cases hlen3 : 3 ≤ lines.length
  · have hr : List.range lines.length =
        List.range (lines.length - 3) ++
          (List.range 3).map (fun x => lines.length - 3 + x) := by
      rw [← List.range_add]
      congr 1
      omega
    rw [hr, List.filterMap_append]
    have htail : List.filterMap
        (fun idx => if specValidStart lines idx then
          some (specContentAt lines idx, idx + 1) else none)
        ((List.range 3).map (fun x => lines.length - 3 + x)) = [] := by
      rw [List.filterMap_eq_nil_iff]
      intro a ha
      rw [List.mem_map] at ha
      obtain ⟨x, hx, rfl⟩ := ha
      rw [List.mem_range] at hx
      have hb : ¬ (lines.length - 3 + x + 4 ≤ lines.length) := by omega
      simp [specValidStart, hb]
    rw [htail, List.append_nil]
    refine List.filterMap_congr ?_
    intro idx hidx
    rw [List.mem_range] at hidx
    have hb : idx + 4 ≤ lines.length := by omega
    by_cases hany : (chunkAt (lines.map normalizeLine) idx).any
        (fun part => part.isEmpty)
    · simp [specValidStart, hany, hb]
    · by_cases hsum : ((chunkAt (lines.map normalizeLine) idx).map
          String.length).sum < 80
      · have hsum2 : ¬ (80 ≤ ((chunkAt (lines.map normalizeLine) idx).map
            String.length).sum) := by omega
        simp [specValidStart, hany, hsum, hsum2]
      · have hsum2 : 80 ≤ ((chunkAt (lines.map normalizeLine) idx).map
            String.length).sum := by omega
        simp [specValidStart, specContentAt, hany, hsum, hsum2, hb]
  · have h0 : lines.length - 3 = 0 := by omega
    rw [h0]
    simp only [List.range_zero, List.filterMap_nil]
    symm
    rw [List.filterMap_eq_nil_iff]
    intro idx hidx
    rw [List.mem_range] at hidx
    have hb : ¬ (idx + 4 ≤ lines.length) := by omega
    simp [specValidStart, hb]

theorem canon_keys (lines : List String) :
    firstDedup ((windowPairs (lines.map normalizeLine)).map (·.1)) =
      specContents lines := by
  rw [windowPairs_eq_spec, List.map_map]
  rfl

theorem canon_vals (lines : List String) (k : String) :
    valsOf k (windowPairs (lines.map normalizeLine)) =
      specStartsOf lines k := by
  rw [windowPairs_eq_spec]
  unfold valsOf specStartsOf
  rw [List.filter_map, List.map_map, List.filter_filter]
  refine congrArg (List.map _) ?_
  refine List.filter_congr ?_
  intro idx _
  simp [Bool.and_comm]

theorem canon_windowPairs_eq (lines : List String) :
    canonWindows (windowPairs (lines.map normalizeLine)) =
      (specContents lines).map (fun c => (c, specStartsOf lines c)) := by
  unfold canonWindows
  rw [canon_keys]
  refine List.map_congr_left ?_
  intro c _
  rw [canon_vals]

/-! ## C7 lemma layer: the emit loops truncate at the cap -/

theorem emitRepeats_eq_take (fp : String) (f : Nat) :
    ∀ (reps : List Nat) (issues : List Issue), issues.length < 20 →
      emitRepeats fp f reps issues =
        (issues ++ reps.map (dupIssue fp f)).take 20 := by
  intro reps
  induction reps with
  | nil =>
      intro issues h
      rw [emitRepeats]
      simp [List.take_of_length_le (by omega : issues.length ≤ 20)]
  | cons ln rest ih =>
      intro issues h
      simp only [emitRepeats]
      by_cases h20 : 20 ≤ (issues ++ [dupIssue fp f ln]).length
      · rw [if_pos h20]
        have hass : issues ++ (ln :: rest).map (dupIssue fp f) =
            (issues ++ [dupIssue fp f ln]) ++ rest.map (dupIssue fp f) := by
          simp
        rw [hass, List.take_append_of_le_length h20,
          List.take_of_length_le (by simp at h20 ⊢; omega)]
      · rw [if_neg h20]
        rw [ih _ (by simp at h20 ⊢; omega)]
        congr 1
        simp

theorem dupLoop_eq_take (fp : String) :
    ∀ (groups : List (String × List Nat)) (issues : List Issue),
      issues.length < 20 →
      dupLoop fp groups issues =
        (issues ++ groups.flatMap (fun g =>
          if 2 ≤ g.2.length then
            g.2.tail.map (dupIssue fp (g.2.headD 0))
          else [])).take 20 := by
  intro groups
  induction groups with
  | nil =>
      intro issues h
      rw [dupLoop]
      simp [List.take_of_length_le (by omega : issues.length ≤ 20)]
  | cons g rest ih =>
      obtain ⟨c, occs⟩ := g
      intro issues h
      simp only [dupLoop]
      by_cases hocc : occs.length < 2
      · rw [if_pos hocc]
        rw [ih issues h]
        have h2 : ¬ (2 ≤ occs.length) := by omega
        simp [h2]
      · rw [if_neg hocc]
        have h2 : 2 ≤ occs.length := by omega
        rw [emitRepeats_eq_take fp (occs.headD 0) occs.tail issues h]
        by_cases h20 : 20 ≤ ((issues ++ occs.tail.map
            (dupIssue fp (occs.headD 0))).take 20).length
        · rw [if_pos h20]
          have hlen20 : 20 ≤ (issues ++ occs.tail.map
              (dupIssue fp (occs.headD 0))).length := by
            simp at h20 ⊢
            omega
          simp only [List.flatMap_cons, if_pos h2]
          rw [← List.append_assoc]
          rw [List.take_append_of_le_length hlen20]
        · rw [if_neg h20]
          have hlt : (issues ++ occs.tail.map
              (dupIssue fp (occs.headD 0))).length < 20 := by
            simp at h20 ⊢
            omega
          rw [List.take_of_length_le (by omega)]
          rw [ih _ hlt]
          simp only [List.flatMap_cons, if_pos h2]
          rw [List.append_assoc]

/-- C7 (amended): for every file of at least 8 lines (twice the window
size), the duplicate-block detector behaves exactly as the claim
describes: normalized 4-line sliding windows, noise filters, one issue
per repeat occurrence of a window content in first-occurrence group
order, anchored at the repeat start line, referencing the first
occurrence in the message, capped at 20 findings per file.  Files shorter
than 8 lines return no findings even when overlapping windows repeat
(generic.py lines 359 to 360); see the counterexample. -/
theorem C7_duplicate_blocks_amended :
    (∀ (fp : String) (lines : List String), 8 ≤ lines.length →
      find_duplicate_blocks fp lines = duplicateIssuesSpec fp lines) ∧
    (∀ (fp : String) (f r : Nat),
      (dupIssue fp f r).line = r ∧ (dupIssue fp f r).column = 1 ∧
      (dupIssue fp f r).message =
        "Repeated 4-line block detected (first seen near line "
          ++ natToStr f ++ ")." ∧
      (dupIssue fp f r).rule_id = "SS105") := by
  constructor
  · intro fp lines hlen
    unfold find_duplicate_blocks
    rw [if_neg (by omega)]
    rw [buildWindows_eq_canon, canon_windowPairs_eq]
    rw [dupLoop_eq_take fp _ [] (by simp)]
    rw [List.nil_append]
    unfold duplicateIssuesSpec
    rw [flatMap_filter_eq_flatMap_ite]
    rw [List.flatMap_map]
    refine congrArg (List.take 20) ?_
    rw [List.flatMap_def, List.flatMap_def]
    refine congrArg List.flatten ?_
    refine List.map_congr_left ?_
    intro c _
    by_cases h2 : 2 ≤ (specStartsOf lines c).length
    · simp [h2]
    · simp [h2]
  · intro fp f r
    exact ⟨rfl, rfl, rfl, rfl⟩

/-- Seven identical 20-character lines: every 4-line window is valid and
identical, so the windows repeat, but the file is below the 8-line guard. -/
def c7SevenLines : List String := List.replicate 7 "abcdefghijklmnopqrst"

/-- C7 counterexample: on a 7-line file with repeated non-trivial 4-line
windows the detector returns nothing, while the claimed behaviour (one
issue per repeat occurrence of any window content occurring twice or
more) yields three issues; the claim as stated over every file is false. -/
theorem C7_counterexample_short_file :
    find_duplicate_blocks "f.txt" c7SevenLines = [] ∧
    duplicateIssuesSpec "f.txt" c7SevenLines =
      [dupIssue "f.txt" 1 2, dupIssue "f.txt" 1 3, dupIssue "f.txt" 1 4] := by
  constructor
  · decide
  · decide

/-- Eight identical 20-character lines, above the guard. -/
def c7EightLines : List String := List.replicate 8 "abcdefghijklmnopqrst"

/-- C7 witness: the amended equivalence applied to a concrete 8-line
file. -/
theorem C7_duplicate_blocks_witness :
    8 ≤ c7EightLines.length ∧
    find_duplicate_blocks "f.txt" c7EightLines =
      duplicateIssuesSpec "f.txt" c7EightLines :=
  ⟨by decide, C7_duplicate_blocks_amended.1 "f.txt" c7EightLines (by decide)⟩

/-! ## The Python rule engine (src/supersonar/rules/python.py)

The engine reads the file text and runs two line-based regex checks and
one AST pass.  The text is given to the model as its splitlines
decomposition, and the outcome of ast.parse (a CPython library call) is
given as either the syntax-error data or the parsed module body.  The
abstract syntax tree is modelled by the node type below, which carries
exactly the fields the engine consults. -/

/-- The data of a SyntaxError the parser reports. -/
structure SynErr where
  msg : String
  lineno : Option Nat
  offset : Option Nat
  deriving DecidableEq, Repr

/-- Python "x or 1" over the optional position reported by the parser:
None and 0 are falsy and collapse to 1 (python.py lines 83 to 84). -/
def orOne : Option Nat → Nat
  | none => 1
  | some 0 => 1
  | some (n + 1) => n + 1

/-- Python AST nodes, restricted to the shapes the engine distinguishes.
Import carries the dotted alias names; functionDef carries the counts of
positional and keyword-only arguments and the presence of *args and
**kwargs; forS and withS carry an asynchrony flag standing for the
AsyncFor and AsyncWith variants. -/
inductive PyNode where
  | module (body : List PyNode)
  | importS (names : List String)
  | importFrom (mod : Option String)
  | functionDef (isAsync : Bool) (name : String)
      (argsArgs kwonlyargs : Nat) (hasVararg hasKwarg : Bool)
      (lineno colOffset : Nat) (endLineno : Option Nat)
      (body : List PyNode)
  | classDef (name : String) (lineno colOffset : Nat)
      (body : List PyNode)
  | ifS (test : PyNode) (body orelse : List PyNode)
  | whileS (test : PyNode) (body orelse : List PyNode)
  | forS (isAsync : Bool) (target iter : PyNode)
      (body orelse : List PyNode)
  | tryS (body handlers orelse finalbody : List PyNode)
  | withS (isAsync : Bool) (items body : List PyNode)
  | matchS (subject : PyNode) (cases : List PyNode)
  | exceptHandler (ty : Option PyNode) (lineno colOffset : Nat)
      (body : List PyNode)
  | exprStmt (value : PyNode)
  | assign (targets : List PyNode) (value : PyNode)
  | ret (value : Option PyNode)
  | passS
  | call (func : PyNode) (args : List PyNode)
      (keywords : List (Option String × PyNode)) (lineno colOffset : Nat)
  | attributeE (value : PyNode) (attr : String)
  | nameE (id : String)
  | tupleE (elts : List PyNode)
  | constTrue
  | constOther

mutual
/-- Preorder traversal of a node and its descendants.  Models the node
set visited by ast.walk; ast.walk is breadth-first while this is
depth-first, and no verified property depends on the visit order.
Keyword wrapper nodes are flattened to their value expressions; no
engine check matches a keyword wrapper node. -/
def walkN : PyNode → List PyNode
  | .module b => .module b :: walkL b
  | .importS ns => [.importS ns]
  | .importFrom m => [.importFrom m]
  | .functionDef ia n a k hv hk ln co el b =>
      .functionDef ia n a k hv hk ln co el b :: walkL b
  | .classDef n ln co b => .classDef n ln co b :: walkL b
  | .ifS t b e => .ifS t b e :: (walkN t ++ walkL b ++ walkL e)
  | .whileS t b e => .whileS t b e :: (walkN t ++ walkL b ++ walkL e)
  | .forS ia tg it b e =>
      .forS ia tg it b e :: (walkN tg ++ walkN it ++ walkL b ++ walkL e)
  | .tryS b h e f =>
      .tryS b h e f :: (walkL b ++ walkL h ++ walkL e ++ walkL f)
  | .withS ia its b => .withS ia its b :: (walkL its ++ walkL b)
  | .matchS s cs => .matchS s cs :: (walkN s ++ walkL cs)
  | .exceptHandler t ln co b =>
      .exceptHandler t ln co b :: (walkO t ++ walkL b)
  | .exprStmt v => .exprStmt v :: walkN v
  | .assign ts v => .assign ts v :: (walkL ts ++ walkN v)
  | .ret v => .ret v :: walkO v
  | .passS => [.passS]
  | .call f a k ln co => .call f a k ln co :: (walkN f ++ walkL a ++ walkK k)
  | .attributeE v a => .attributeE v a :: walkN v
  | .nameE i => [.nameE i]
  | .tupleE es => .tupleE es :: walkL es
  | .constTrue => [.constTrue]
  | .constOther => [.constOther]
def walkL : List PyNode → List PyNode
  | [] => []
  | n :: ns => walkN n ++ walkL ns
def walkO : Option PyNode → List PyNode
  | none => []
  | some n => walkN n
def walkK : List (Option String × PyNode) → List PyNode
  | [] => []
  | (_, v) :: ks => walkN v ++ walkK ks
end

/-- Head character class of SNAKE_CASE_PATTERN. -/
def isSnakeHead (c : Char) : Bool :=
  (97 ≤ c.toNat && c.toNat ≤ 122) || c = '_'

/-- Tail character class of SNAKE_CASE_PATTERN. -/
def isSnakeTail (c : Char) : Bool :=
  (97 ≤ c.toNat && c.toNat ≤ 122) || c.isDigit || c = '_'

/-- Fullmatch against SNAKE_CASE_PATTERN (python.py line 16). -/
def snakeCaseFull (s : String) : Bool :=
  match s.data with
  | [] => false
  | c :: rest => isSnakeHead c && rest.all isSnakeTail

/-- Fullmatch against UPPER_CAMEL_CASE_PATTERN (python.py line 17). -/
def upperCamelFull (s : String) : Bool :=
  match s.data with
  | [] => false
  | c :: rest => (65 ≤ c.toNat && c.toNat ≤ 90) &&
      rest.all (fun d => (65 ≤ d.toNat && d.toNat ≤ 90) ||
        (97 ≤ d.toNat && d.toNat ≤ 122) || d.isDigit)

/-- Models _is_allowed_function_name: dunder names or snake_case. -/
def is_allowed_function_name (name : String) : Bool :=
  (leadsList "__".data name.data && leadsList "__".data name.data.reverse)
    || snakeCaseFull name

mutual
/-- Models _is_broad_except_type on a present handler type. -/
def broadExceptExpr : PyNode → Bool
  | .nameE id => id = "Exception" || id = "BaseException"
  | .tupleE elts => broadExceptList elts
  | _ => false
def broadExceptList : List PyNode → Bool
  | [] => false
  | e :: es => broadExceptExpr e || broadExceptList es
end

/-- Models _is_broad_except_type (python.py lines 337 to 344). -/
def is_broad_except_type : Option PyNode → Bool
  | none => false
  | some n => broadExceptExpr n

/-- Models _is_subprocess_shell_true_call on the pieces of a Call node
(python.py lines 302 to 315): the first shell keyword decides. -/
def is_subprocess_shell_true_call (func : PyNode)
    (keywords : List (Option String × PyNode)) : Bool :=
  match func with
  | .attributeE (.nameE v) attr =>
      v = "subprocess" &&
      (attr = "run" || attr = "Popen" || attr = "call" ||
        attr = "check_call" || attr = "check_output") &&
      (match keywords.find? (fun kw => kw.1 = some "shell") with
       | none => false
       | some (_, PyNode.constTrue) => true
       | some _ => false)
  | _ => false

/-- Models _is_unsafe_yaml_load (python.py lines 318 to 334): the first
Loader keyword decides, and only yaml.SafeLoader is safe. -/
def is_unsafe_yaml_load (func : PyNode)
    (keywords : List (Option String × PyNode)) : Bool :=
  match func with
  | .attributeE (.nameE v) attr =>
      v = "yaml" && attr = "load" &&
      (match keywords.find? (fun kw => kw.1 = some "Loader") with
       | none => true
       | some (_, PyNode.attributeE (PyNode.nameE lv) lattr) =>
           !(lv = "yaml" && lattr = "SafeLoader")
       | some _ => true)
  | _ => false

mutual
/-- Models the walk helper of _max_python_nesting (python.py lines 353
to 363): depth grows on control-flow nodes (If, For/AsyncFor, While,
Try, With/AsyncWith, Match) and the maximum over the node and its
children is returned. -/
def maxNest : PyNode → Nat → Nat
  | .module b, d => max d (maxNestL b d)
  | .importS _, d => d
  | .importFrom _, d => d
  | .functionDef _ _ _ _ _ _ _ _ _ b, d => max d (maxNestL b d)
  | .classDef _ _ _ b, d => max d (maxNestL b d)
  | .ifS t b e, d =>
      max (d + 1) (max (maxNest t (d + 1))
        (max (maxNestL b (d + 1)) (maxNestL e (d + 1))))
  | .whileS t b e, d =>
      max (d + 1) (max (maxNest t (d + 1))
        (max (maxNestL b (d + 1)) (maxNestL e (d + 1))))
  | .forS _ tg it b e, d =>
      max (d + 1) (max (maxNest tg (d + 1)) (max (maxNest it (d + 1))
        (max (maxNestL b (d + 1)) (maxNestL e (d + 1)))))
  | .tryS b h e f, d =>
      max (d + 1) (max (maxNestL b (d + 1)) (max (maxNestL h (d + 1))
        (max (maxNestL e (d + 1)) (maxNestL f (d + 1)))))
  | .withS _ its b, d =>
      max (d + 1) (max (maxNestL its (d + 1)) (maxNestL b (d + 1)))
  | .matchS s cs, d =>
      max (d + 1) (max (maxNest s (d + 1)) (maxNestL cs (d + 1)))
  | .exceptHandler t _ _ b, d =>
      max d (max (maxNestO t d) (maxNestL b d))
  | .exprStmt v, d => max d (maxNest v d)
  | .assign ts v, d => max d (max (maxNestL ts d) (maxNest v d))
  | .ret v, d => max d (maxNestO v d)
  | .passS, d => d
  | .call f a k _ _, d =>
      max d (max (maxNest f d) (max (maxNestL a d) (maxNestK k d)))
  | .attributeE v _, d => max d (maxNest v d)
  | .nameE _, d => d
  | .tupleE es, d => max d (maxNestL es d)
  | .constTrue, d => d
  | .constOther, d => d
def maxNestL : List PyNode → Nat → Nat
  | [], _ => 0
  | n :: ns, d => max (maxNest n d) (maxNestL ns d)
def maxNestO : Option PyNode → Nat → Nat
  | none, _ => 0
  | some n, d => maxNest n d
def maxNestK : List (Option String × PyNode) → Nat → Nat
  | [], _ => 0
  | (_, v) :: ks, d => max (maxNest v d) (maxNestK ks d)
end

/-- Models _max_python_nesting on a module body. -/
def max_python_nesting (body : List PyNode) : Nat :=
  maxNest (.module body) 0

/-- Models PythonRuleEngine._find_function_quality_issues on the fields
of a function node (python.py lines 173 to 224). -/
def find_function_quality_issues (fp : String) (name : String)
    (argsArgs kwonlyargs : Nat) (hasVararg hasKwarg : Bool)
    (lineno colOffset : Nat) (endLineno : Option Nat) : List Issue :=
  (if !(is_allowed_function_name name) then
    [{ rule_id := "SS213"
       title := "Python function naming convention"
       severity := "low"
       message := "Function names should be snake_case."
       file_path := fp
       line := lineno
       column := colOffset + 1 }]
   else []) ++
  (match endLineno with
   | some e =>
       if 60 < e - lineno + 1 then
         [{ rule_id := "SS210"
            title := "Function too long"
            severity := "medium"
            message := "Function spans " ++ natToStr (e - lineno + 1)
              ++ " lines; target at most 60."
            file_path := fp
            line := lineno
            column := colOffset + 1 }]
       else []
   | none => []) ++
  (if 6 < argsArgs + kwonlyargs + (if hasVararg then 1 else 0) +
      (if hasKwarg then 1 else 0) then
    [{ rule_id := "SS211"
       title := "Too many function parameters"
       severity := "medium"
       message := "Function has " ++ natToStr (argsArgs + kwonlyargs +
           (if hasVararg then 1 else 0) + (if hasKwarg then 1 else 0))
         ++ " parameters; target at most 6."
       file_path := fp
       line := lineno
       column := colOffset + 1 }]
   else [])

/-- Issues the main walk loop of _analyze_ast emits for one node
(python.py lines 89 to 155), in the order of the checks in the loop
body. -/
def nodeIssues (fp : String) (n : PyNode) : List Issue :=
  (match n with
   | .call (.nameE id) _ _ ln co =>
       if id = "eval" || id = "exec" then
         [{ rule_id := "SS001"
            title := "Dangerous dynamic execution"
            severity := "critical"
            message := "Avoid " ++ id ++ "() because it executes dynamic code."
            file_path := fp
            line := ln
            column := co + 1 }]
       else []
   | _ => []) ++
  (match n with
   | .exceptHandler ty ln co _ =>
       if ty.isNone || is_broad_except_type ty then
         [{ rule_id := "SS002"
            title := "Broad exception handling"
            severity := "medium"
            message := "Avoid bare except or except Exception; catch specific errors."
            file_path := fp
            line := ln
            column := co + 1 }]
       else []
   | _ => []) ++
  (match n with
   | .call f _ kws ln co =>
       if is_subprocess_shell_true_call f kws then
         [{ rule_id := "SS006"
            title := "Shell execution with shell=True"
            severity := "high"
            message := "Avoid subprocess calls with shell=True; pass argument arrays instead."
            file_path := fp
            line := ln
            column := co + 1 }]
       else []
   | _ => []) ++
  (match n with
   | .call f _ kws ln co =>
       if is_unsafe_yaml_load f kws then
         [{ rule_id := "SS007"
            title := "Unsafe YAML deserialization"
            severity := "high"
            message := "Use yaml.safe_load() or pass Loader=yaml.SafeLoader to yaml.load()."
            file_path := fp
            line := ln
            column := co + 1 }]
       else []
   | _ => []) ++
  (match n with
   | .functionDef _ nm a k hv hk ln co el _ =>
       find_function_quality_issues fp nm a k hv hk ln co el
   | _ => []) ++
  (match n with
   | .classDef nm ln co _ =>
       if !(upperCamelFull nm) then
         [{ rule_id := "SS214"
            title := "Python class naming convention"
            severity := "low"
            message := "Class names should be UpperCamelCase."
            file_path := fp
            line := ln
            column := co + 1 }]
       else []
   | _ => [])

/-- The self-qualified attribute name of a node, when it is one. -/
def selfAttrOf : PyNode → Option String
  | .attributeE (.nameE v) a => if v = "self" then some a else none
  | _ => none

/-- Models _self_fields_in_method (python.py lines 396 to 406): the set
of attribute names reached through the self qualifier anywhere in the
method. -/
def self_fields_in_method (m : PyNode) : Finset String :=
  ((walkN m).filterMap selfAttrOf).toFinset

/-- Ordered pairs of list elements, models itertools.combinations(l, 2). -/
def combos {α : Type} : List α → List (α × α)
  | [] => []
  | x :: xs => xs.map (fun y => (x, y)) ++ combos xs

/-- Models _python_class_cohesion (python.py lines 378 to 393) over the
per-method field sets, with the float arithmetic carried out exactly in
the rationals: methods with empty field sets are discarded, fewer than
3 useful methods yield no score, otherwise the Jaccard similarities of
all pairs are averaged. -/
def python_class_cohesion (fieldSets : List (Finset String)) :
    Option ℚ :=
  let useful := fieldSets.filter (fun s => s ≠ ∅)
  if useful.length < 3 then none
  else
    let scores := (combos useful).filterMap (fun lr =>
      if lr.1 ∪ lr.2 = ∅ then none
      else some ((((lr.1 ∩ lr.2).card : ℚ)) / (((lr.1 ∪ lr.2).card : ℚ))))
    if scores.length = 0 then none
    else some (scores.sum / (scores.length : ℚ))

/-- Models _java_class_cohesion (java.py lines 391 to 411) over the
per-method this-qualified field sets: the construction appends only
nonempty sets, then proceeds exactly as the Python scorer. -/
def java_class_cohesion (methodFieldSets : List (Finset String)) :
    Option ℚ :=
  let field_sets := methodFieldSets.filter (fun s => s ≠ ∅)
  if field_sets.length < 3 then none
  else
    let scores := (combos field_sets).filterMap (fun lr =>
      if lr.1 ∪ lr.2 = ∅ then none
      else some ((((lr.1 ∩ lr.2).card : ℚ)) / (((lr.1 ∪ lr.2).card : ℚ))))
    if scores.length = 0 then none
    else some (scores.sum / (scores.length : ℚ))

/-- Two-decimal rendering of a nonnegative rational, used for the
cohesion score message; approximates the CPython float :.2f format with
exact rational rounding. -/
def ratToStr2 (q : ℚ) : String :=
  let n := (⌊q * 100 + 1 / 2⌋).toNat
  natToStr (n / 100) ++ "." ++
    (if n % 100 < 10 then "0" ++ natToStr (n % 100) else natToStr (n % 100))

/-- First components of the dotted names a node imports (python.py
lines 366 to 375). -/
def importRoots (n : PyNode) : List String :=
  match n with
  | .importS names => names.map (fun nm => ⟨nm.data.takeWhile (· ≠ '.')⟩)
  | .importFrom (some m) => [⟨m.data.takeWhile (· ≠ '.')⟩]
  | _ => []

/-- Models _python_import_fan_out: the number of distinct imported root
modules over the whole tree. -/
def python_import_fan_out (body : List PyNode) : Nat :=
  (firstDedup ((walkN (.module body)).flatMap importRoots)).length

/-- Function definition test used for the module surface count. -/
def isFunctionDefNode : PyNode → Bool
  | .functionDef _ _ _ _ _ _ _ _ _ _ => true
  | _ => false

/-- The methods of a class body: function definitions whose name does
not start with a double underscore (python.py lines 261 to 265). -/
def methodNodes (classBody : List PyNode) : List PyNode :=
  classBody.filter (fun n =>
    match n with
    | .functionDef _ nm _ _ _ _ _ _ _ _ => !(leadsList "__".data nm.data)
    | _ => false)

/-- The per-class body of the loop in _find_structural_quality_issues
(python.py lines 260 to 297): the method-count check followed by the
cohesion check, both anchored at the class declaration. -/
def classQualityIssues (fp : String) (name : String)
    (lineno colOffset : Nat) (body : List PyNode) : List Issue :=
  (if 15 < (methodNodes body).length then
    [{ rule_id := "SS216"
       title := "Class has too many methods"
       severity := "medium"
       message := "Class '" ++ name ++ "' declares "
         ++ natToStr (methodNodes body).length
         ++ " methods; target at most 15."
       file_path := fp
       line := lineno
       column := colOffset + 1 }]
   else []) ++
  (match python_class_cohesion
      ((methodNodes body).map self_fields_in_method) with
   | some q =>
       if q < 3 / 20 then
         [{ rule_id := "SS218"
            title := "Low class cohesion"
            severity := "medium"
            message := "Class '" ++ name
              ++ "' methods share little common state (cohesion score "
              ++ ratToStr2 q ++ ")."
            file_path := fp
            line := lineno
            column := colOffset + 1 }]
       else []
   | none => [])

/-- Models _find_structural_quality_issues (python.py lines 226 to
299). -/
def find_structural_quality_issues (fp : String) (body : List PyNode) :
    List Issue :=
  (if 20 < python_import_fan_out body then
    [{ rule_id := "SS215"
       title := "High import fan-out"
       severity := "medium"
       message := "Module imports " ++ natToStr (python_import_fan_out body)
         ++ " dependencies; consider reducing coupling."
       file_path := fp
       line := 1
       column := 1 }]
   else []) ++
  (if 20 < (body.filter isFunctionDefNode).length then
    [{ rule_id := "SS217"
       title := "Large module surface"
       severity := "low"
       message := "Module defines "
         ++ natToStr (body.filter isFunctionDefNode).length
         ++ " top-level functions; consider splitting by responsibility."
       file_path := fp
       line := 1
       column := 1 }]
   else []) ++
  body.flatMap (fun n =>
    match n with
    | .classDef nm ln co cbody => classQualityIssues fp nm ln co cbody
    | _ => [])

/-- The synthetic issue of the parse-failure branch (python.py lines 75
to 87). -/
def syntaxErrorIssue (fp : String) (e : SynErr) : Issue :=
  { rule_id := "SS000"
    title := "Syntax error"
    severity := "medium"
    message := "Could not parse file: " ++ e.msg
    file_path := fp
    line := orOne e.lineno
    column := orOne e.offset }

/-- Models PythonRuleEngine._analyze_ast: the parse-failure branch
returns only the synthetic syntax-error issue; the success branch runs
the walk checks, the nesting check and the structural checks. -/
def analyze_ast (parse : Except SynErr (List PyNode)) (fp : String) :
    List Issue :=
  match parse with
  | .error e => [syntaxErrorIssue fp e]
  | .ok body =>
      ((walkN (.module body)).flatMap (nodeIssues fp)) ++
      (if 4 < max_python_nesting body then
        [{ rule_id := "SS212"
           title := "Excessive nesting depth"
           severity := "medium"
           message := "Maximum nesting depth is "
             ++ natToStr (max_python_nesting body)
             ++ "; keep it at or below 4."
           file_path := fp
           line := 1
           column := 1 }]
       else []) ++
      find_structural_quality_issues fp body

/-- Case-insensitive whole-word match of the uppercase word w at the
head of l: every character matches up to case and the following
character, if any, is not a word character. -/
def matchesWordCI : List Char → List Char → Bool
  | [], rest =>
      match rest with
      | [] => true
      | c :: _ => !(isWordChar c)
  | _ :: _, [] => false
  | wc :: ws, c :: cs => (c.toUpper = wc) && matchesWordCI ws cs

/-- Leftmost start of a TODO or FIXME word-boundary match, models
TODO_FIXME_PATTERN.search (python.py line 15): the index tracks the
position, the flag whether the previous character was a word character
(the left boundary). -/
def todoSearchAux : Nat → Bool → List Char → Option Nat
  | _, _, [] => none
  | i, prevW, c :: cs =>
      if !prevW && (matchesWordCI "TODO".data (c :: cs) ||
          matchesWordCI "FIXME".data (c :: cs)) then some i
      else todoSearchAux (i + 1) (isWordChar c) cs

/-- Start index of the first TODO/FIXME match in a line, if any. -/
def todoMatchStart (l : List Char) : Option Nat :=
  todoSearchAux 0 false l

/-- Models PythonRuleEngine._find_todo_fixme (python.py lines 36 to
52). -/
def find_todo_fixme (fp : String) (lines : List String) : List Issue :=
  (List.enumFrom 1 lines).filterMap (fun p =>
    match todoMatchStart p.2.data with
    | some st => some
        { rule_id := "SS004"
          title := "Work item marker in source"
          severity := "low"
          message := "Found TODO/FIXME marker. Track and resolve before release."
          file_path := fp
          line := p.1
          column := st + 1 }
    | none => none)

/-- The keyword alternatives of SECRET_PATTERN (python.py lines 11 to
14): api[_-]?key, secret, token, password. -/
def secretKeywords : List (List Char) :=
  ["api_key".data, "api-key".data, "apikey".data, "secret".data,
   "token".data, "password".data]

/-- Remainder of l after matching the lowercase keyword w
case-insensitively at its head. -/
def matchKeywordCI : List Char → List Char → Option (List Char)
  | [], rest => some rest
  | _ :: _, [] => none
  | wc :: ws, c :: cs =>
      if c.toLower = wc then matchKeywordCI ws cs else none

/-- The suffix bs*=bs*[quote][^quotes]{8,}[quote] of SECRET_PATTERN after
the keyword: optional whitespace, an equals sign, optional whitespace, a
quote, at least 8 non-quote characters and a closing quote. -/
def secretAfterKeyword (rest : List Char) : Bool :=
  match rest.dropWhile isPySpace with
  | '=' :: r2 =>
      (match r2.dropWhile isPySpace with
       | q :: r4 =>
           if q = '\'' || q = '"' then
             decide (8 ≤ (r4.takeWhile
                 (fun c => !(c = '\'' || c = '"'))).length) &&
             !((r4.drop (r4.takeWhile
                 (fun c => !(c = '\'' || c = '"'))).length).isEmpty)
           else false
       | [] => false)
  | _ => false

/-- Search for SECRET_PATTERN anywhere in a line. -/
def secretSearch : List Char → Bool
  | [] => false
  | c :: cs =>
      (secretKeywords.any (fun w =>
        match matchKeywordCI w (c :: cs) with
        | some rest => secretAfterKeyword rest
        | none => false)) || secretSearch cs

/-- Models PythonRuleEngine._find_secrets (python.py lines 54 to 69). -/
def find_secrets (fp : String) (lines : List String) : List Issue :=
  (List.enumFrom 1 lines).filterMap (fun p =>
    if secretSearch p.2.data then some
      { rule_id := "SS003"
        title := "Potential hardcoded secret"
        severity := "high"
        message := "Potential credential/token assignment found in source."
        file_path := fp
        line := p.1
        column := 1 }
    else none)

/-- Models PythonRuleEngine.run (python.py lines 28 to 34): the TODO and
secret line checks followed by the AST pass, over the splitlines
decomposition of the file text and the ast.parse outcome. -/
def pythonRun (fp : String) (lines : List String)
    (parse : Except SynErr (List PyNode)) : List Issue :=
  find_todo_fixme fp lines ++ find_secrets fp lines ++ analyze_ast parse fp

/-! ## C5: behaviour on a parse failure -/

theorem mem_find_todo_fixme_rule {fp : String} {lines : List String}
    {i : Issue} (h : i ∈ find_todo_fixme fp lines) :
    i.rule_id = "SS004" := by
  unfold find_todo_fixme at h
  rw [List.mem_filterMap] at h
  obtain ⟨p, _, hp⟩ := h
  cases hm : todoMatchStart p.2.data with
  | some st =>
      rw [hm] at hp
      injection hp with hp
      rw [← hp]
  | none => rw [hm] at hp; cases hp

theorem mem_find_secrets_rule {fp : String} {lines : List String}
    {i : Issue} (h : i ∈ find_secrets fp lines) :
    i.rule_id = "SS003" := by
  unfold find_secrets at h
  rw [List.mem_filterMap] at h
  obtain ⟨p, _, hp⟩ := h
  by_cases hs : secretSearch p.2.data
  · rw [if_pos hs] at hp
    injection hp with hp
    rw [← hp]
  · rw [if_neg hs] at hp
    cases hp

/-- C5: on a parse failure the run returns the TODO and secret line
checks followed by exactly one synthetic syntax-error issue; the
synthetic issue carries the parser-reported line and column whenever the
parser reports them (Python-truthily: a missing or zero position
collapses to 1); and every returned issue is a line-check issue or the
syntax error, so every AST-based check is skipped. -/
theorem C5_parse_failure_behaviour (fp : String) (lines : List String)
    (e : SynErr) :
    pythonRun fp lines (.error e) =
      find_todo_fixme fp lines ++ find_secrets fp lines
        ++ [syntaxErrorIssue fp e] ∧
    ((pythonRun fp lines (.error e)).filter
      (fun i => i.rule_id = "SS000")).length = 1 ∧
    (∀ l, e.lineno = some l → l ≠ 0 → (syntaxErrorIssue fp e).line = l) ∧
    (∀ c, e.offset = some c → c ≠ 0 →
      (syntaxErrorIssue fp e).column = c) ∧
    (∀ i ∈ pythonRun fp lines (.error e),
      i.rule_id = "SS004" ∨ i.rule_id = "SS003" ∨ i.rule_id = "SS000") := by
  have hrun : pythonRun fp lines (.error e) =
      find_todo_fixme fp lines ++ find_secrets fp lines
        ++ [syntaxErrorIssue fp e] := rfl
  refine ⟨hrun, ?_, ?_, ?_, ?_⟩
  · rw [hrun]
    rw [List.filter_append, List.filter_append]
    have h1 : (find_todo_fixme fp lines).filter
        (fun i => i.rule_id = "SS000") = [] := by
      rw [List.filter_eq_nil_iff]
      intro i hi
      rw [mem_find_todo_fixme_rule hi]
      decide
    have h2 : (find_secrets fp lines).filter
        (fun i => i.rule_id = "SS000") = [] := by
      rw [List.filter_eq_nil_iff]
      intro i hi
      rw [mem_find_secrets_rule hi]
      decide
    rw [h1, h2]
    simp [syntaxErrorIssue]
  · intro l hl hl0
    unfold syntaxErrorIssue orOne
    rw [hl]
    cases l with
    | zero => exact absurd rfl hl0
    | succ m => rfl
  · intro c hc hc0
    unfold syntaxErrorIssue orOne
    rw [hc]
    cases c with
    | zero => exact absurd rfl hc0
    | succ m => rfl
  · intro i hi
    rw [hrun] at hi
    rcases List.mem_append.mp hi with hi | hi
    · rcases List.mem_append.mp hi with hi | hi
      · exact Or.inl (mem_find_todo_fixme_rule hi)
      · exact Or.inr (Or.inl (mem_find_secrets_rule hi))
    · rcases List.mem_singleton.mp hi with rfl
      exact Or.inr (Or.inr rfl)

/-- Concrete syntax error reported for the witness input def broken(: -/
def c5Err : SynErr :=
  { msg := "invalid syntax"
    lineno := some 1
    offset := some 12 }

/-- C5 witness: the theorem applied to the unparsable file of
test_rules_engine.py::test_syntax_error_emits_issue; the run returns
exactly the synthetic SS000 issue at the reported position. -/
theorem C5_parse_failure_witness :
    pythonRun "bad.py" ["def broken(:", "    pass"] (.error c5Err) =
      [syntaxErrorIssue "bad.py" c5Err] ∧
    (syntaxErrorIssue "bad.py" c5Err).line = 1 ∧
    (syntaxErrorIssue "bad.py" c5Err).column = 12 := by
  have h := C5_parse_failure_behaviour "bad.py"
    ["def broken(:", "    pass"] c5Err
  refine ⟨?_, h.2.2.1 1 rfl (by decide), h.2.2.2.1 12 rfl (by decide)⟩
  rw [h.1]
  decide

/-! ## C9: the Python engine implements no SS009 check -/

/-- Every rule id the Python engine can emit (python.py: SS004, SS003
from the line checks; SS000 from the parse failure; SS001, SS002, SS006,
SS007, SS213, SS210, SS211, SS214 from the walk loop; SS212 from the
nesting check; SS215, SS217, SS216, SS218 from the structural checks). -/
def pythonRuleIds : List String :=
  ["SS004", "SS003", "SS000", "SS001", "SS002", "SS006", "SS007",
   "SS213", "SS210", "SS211", "SS214", "SS212", "SS215", "SS217",
   "SS216", "SS218"]

/-- The immutable security-rule registry of src/supersonar/security.py. -/
def SECURITY_RULE_IDS : List String :=
  ["SS001", "SS003", "SS005", "SS006", "SS007", "SS008", "SS009",
   "SS101", "SS102", "SS107", "SS108", "SS109", "SS110", "SS111",
   "SS112", "SS113", "SS114", "SS221", "SS306", "SS407", "SS408",
   "SS507"]

theorem mem_ite_singleton {c : Prop} [Decidable c] {i x : Issue}
    (h : i ∈ if c then [x] else []) : i = x := by
  by_cases hc : c
  · rw [if_pos hc] at h
    exact List.mem_singleton.mp h
  · rw [if_neg hc] at h
    simp at h

theorem ffqi_rule_ids {fp nm : String} {a k : Nat} {hv hk : Bool}
    {ln co : Nat} {el : Option Nat} {i : Issue}
    (h : i ∈ find_function_quality_issues fp nm a k hv hk ln co el) :
    i.rule_id ∈ pythonRuleIds := by
  unfold find_function_quality_issues at h
  rcases List.mem_append.mp h with h | h
  · rcases List.mem_append.mp h with h | h
    · rw [mem_ite_singleton h]
      exact (by decide : ("SS213" : String) ∈ pythonRuleIds)
    · cases el with
      | some e =>
          rw [mem_ite_singleton h]
          exact (by decide : ("SS210" : String) ∈ pythonRuleIds)
      | none => simp at h
  · rw [mem_ite_singleton h]
    exact (by decide : ("SS211" : String) ∈ pythonRuleIds)

theorem nodeIssues_rule_ids {fp : String} {n : PyNode} {i : Issue}
    (h : i ∈ nodeIssues fp n) : i.rule_id ∈ pythonRuleIds := by
  unfold nodeIssues at h
  rcases List.mem_append.mp h with h | h
  · rcases List.mem_append.mp h with h | h
    · rcases List.mem_append.mp h with h | h
      · rcases List.mem_append.mp h with h | h
        · rcases List.mem_append.mp h with h | h
          · split at h
            · rw [mem_ite_singleton h]
              exact (by decide : ("SS001" : String) ∈ pythonRuleIds)
            · simp at h
          · split at h
            · rw [mem_ite_singleton h]
              exact (by decide : ("SS002" : String) ∈ pythonRuleIds)
            · simp at h
        · split at h
          · rw [mem_ite_singleton h]
            exact (by decide : ("SS006" : String) ∈ pythonRuleIds)
          · simp at h
      · split at h
        · rw [mem_ite_singleton h]
          exact (by decide : ("SS007" : String) ∈ pythonRuleIds)
        · simp at h
    · split at h
      · exact ffqi_rule_ids h
      · simp at h
  · split at h
    · rw [mem_ite_singleton h]
      exact (by decide : ("SS214" : String) ∈ pythonRuleIds)
    · simp at h

theorem classQualityIssues_rule_ids {fp nm : String} {ln co : Nat}
    {body : List PyNode} {i : Issue}
    (h : i ∈ classQualityIssues fp nm ln co body) :
    i.rule_id ∈ pythonRuleIds := by
  unfold classQualityIssues at h
  rcases List.mem_append.mp h with h | h
  · rw [mem_ite_singleton h]
    exact (by decide : ("SS216" : String) ∈ pythonRuleIds)
  · split at h
    · rw [mem_ite_singleton h]
      exact (by decide : ("SS218" : String) ∈ pythonRuleIds)
    · simp at h

theorem structural_rule_ids {fp : String} {body : List PyNode}
    {i : Issue} (h : i ∈ find_structural_quality_issues fp body) :
    i.rule_id ∈ pythonRuleIds := by
  unfold find_structural_quality_issues at h
  rcases List.mem_append.mp h with h | h
  · rcases List.mem_append.mp h with h | h
    · rw [mem_ite_singleton h]
      exact (by decide : ("SS215" : String) ∈ pythonRuleIds)
    · rw [mem_ite_singleton h]
      exact (by decide : ("SS217" : String) ∈ pythonRuleIds)
  · rw [List.mem_flatMap] at h
    obtain ⟨n, _, hn⟩ := h
    split at hn
    · exact classQualityIssues_rule_ids hn
    · simp at hn

theorem analyze_ast_rule_ids {parse : Except SynErr (List PyNode)}
    {fp : String} {i : Issue} (h : i ∈ analyze_ast parse fp) :
    i.rule_id ∈ pythonRuleIds := by
  unfold analyze_ast at h
  cases parse with
  | error e =>
      simp at h
      rw [h]
      exact (by decide : ("SS000" : String) ∈ pythonRuleIds)
  | ok body =>
      rcases List.mem_append.mp h with h | h
      · rcases List.mem_append.mp h with h | h
        · rw [List.mem_flatMap] at h
          obtain ⟨n, _, hn⟩ := h
          exact nodeIssues_rule_ids hn
        · rw [mem_ite_singleton h]
          exact (by decide : ("SS212" : String) ∈ pythonRuleIds)
      · exact structural_rule_ids h

theorem pythonRun_rule_ids {fp : String} {lines : List String}
    {parse : Except SynErr (List PyNode)} {i : Issue}
    (h : i ∈ pythonRun fp lines parse) : i.rule_id ∈ pythonRuleIds := by
  unfold pythonRun at h
  rcases List.mem_append.mp h with h | h
  · rcases List.mem_append.mp h with h | h
    · rw [mem_find_todo_fixme_rule h]; decide
    · rw [mem_find_secrets_rule h]; decide
  · exact analyze_ast_rule_ids h

/-- The source lines of
test_rules_engine.py::test_detects_requests_verify_false. -/
def c9Lines : List String :=
  ["import requests",
   "requests.get(\"https://example.com\", verify=False)"]

/-- The abstract syntax tree CPython parses from those lines: one import
and one expression statement calling requests.get with a string argument
and the keyword verify=False. -/
def c9Body : List PyNode :=
  [.importS ["requests"],
   .exprStmt (.call (.attributeE (.nameE "requests") "get")
     [.constOther] [(some "verify", .constOther)] 2 0)]

/-- C9: the Python rule engine cannot emit SS009 (requests with
verify=False) on any input, because no check of python.py produces it;
SS009 is nonetheless a registered security rule id, and on the exact
input of test_detects_requests_verify_false the run returns no issue at
all, while the test requires an SS009 issue. -/
theorem C9_no_requests_verify_false_check :
    (∀ fp lines parse i, i ∈ pythonRun fp lines parse →
      i.rule_id ∈ pythonRuleIds) ∧
    "SS009" ∉ pythonRuleIds ∧
    "SS009" ∈ SECURITY_RULE_IDS ∧
    pythonRun "sample.py" c9Lines (.ok c9Body) = [] := by
  refine ⟨fun fp lines parse i h => pythonRun_rule_ids h,
    by decide, by decide, ?_⟩
  decide

/-- C9 witness: the rule-id closure applied to the concrete syntax-error
run of the C5 witness. -/
theorem C9_rule_ids_witness :
    (syntaxErrorIssue "bad.py" c5Err).rule_id ∈ pythonRuleIds := by
  have hmem : syntaxErrorIssue "bad.py" c5Err ∈
      pythonRun "bad.py" ["def broken(:"] (.error c5Err) := by decide
  exact C9_no_requests_verify_false_check.1 "bad.py" ["def broken(:"]
    (.error c5Err) (syntaxErrorIssue "bad.py" c5Err) hmem

/-! ## C8: the cohesion scorer -/

theorem combos_mem {α : Type} {lr : α × α} :
    ∀ {l : List α}, lr ∈ combos l → lr.1 ∈ l ∧ lr.2 ∈ l := by
  intro l
  induction l with
  | nil => intro h; simp [combos] at h
  | cons x xs ih =>
      intro h
      unfold combos at h
      rcases List.mem_append.mp h with h | h
      · rw [List.mem_map] at h
        obtain ⟨y, hy, rfl⟩ := h
        exact ⟨List.mem_cons.mpr (Or.inl rfl),
          List.mem_cons.mpr (Or.inr hy)⟩
      · obtain ⟨h1, h2⟩ := ih h
        exact ⟨List.mem_cons.mpr (Or.inr h1),
          List.mem_cons.mpr (Or.inr h2)⟩

theorem combos_length_pos {α : Type} :
    ∀ {l : List α}, 2 ≤ l.length → 0 < (combos l).length := by
  intro l
  cases l with
  | nil => intro h; simp at h
  | cons x xs =>
      cases xs with
      | nil => intro h; simp at h
      | cons y ys =>
          intro _
          simp [combos]

theorem filterMap_some_eq_map {α β : Type} (f : α → β) :
    ∀ l : List α, l.filterMap (fun x => some (f x)) = l.map f := by
  intro l
  induction l with
  | nil => rfl
  | cons x xs ih => simp [List.filterMap_cons, ih]

/-- C8: the cohesion scorer of both engines.  With fewer than 3 methods
referencing any field the score is undefined and no issue is emitted;
otherwise it is exactly the average Jaccard similarity over every pair
of methods with a nonempty field set, the Java scorer computes the same
function, and the Python class loop emits an SS218 issue exactly when
the score is defined and below the 0.15 threshold, anchored at the class
declaration line. -/
theorem C8_class_cohesion :
    (∀ sets : List (Finset String),
      ((sets.filter (fun s => s ≠ ∅)).length < 3 →
        python_class_cohesion sets = none) ∧
      (3 ≤ (sets.filter (fun s => s ≠ ∅)).length →
        python_class_cohesion sets =
          some ((((combos (sets.filter (fun s => s ≠ ∅))).map
              (fun lr => ((lr.1 ∩ lr.2).card : ℚ) /
                ((lr.1 ∪ lr.2).card : ℚ))).sum) /
            (((combos (sets.filter (fun s => s ≠ ∅))).length : ℚ)))) ∧
      java_class_cohesion sets = python_class_cohesion sets) ∧
    (∀ (fp name : String) (ln co : Nat) (body : List PyNode),
      ((∃ i ∈ classQualityIssues fp name ln co body,
          i.rule_id = "SS218") ↔
        (∃ q, python_class_cohesion
            ((methodNodes body).map self_fields_in_method) = some q ∧
          q < 3 / 20)) ∧
      (∀ i ∈ classQualityIssues fp name ln co body, i.line = ln)) := by
  constructor
  · intro sets
    refine ⟨?_, ?_, rfl⟩
    · intro hlt
      simp only [python_class_cohesion]
      rw [if_pos hlt]
    · intro h3
      simp only [python_class_cohesion]
      rw [if_neg (by omega)]
      have hcong : (combos (sets.filter (fun s => s ≠ ∅))).filterMap
          (fun lr => if lr.1 ∪ lr.2 = ∅ then none
            else some (((lr.1 ∩ lr.2).card : ℚ) /
              ((lr.1 ∪ lr.2).card : ℚ))) =
          (combos (sets.filter (fun s => s ≠ ∅))).map
            (fun lr => ((lr.1 ∩ lr.2).card : ℚ) /
              ((lr.1 ∪ lr.2).card : ℚ)) := by
        rw [List.filterMap_congr ?_]
        · exact filterMap_some_eq_map _ _
        · intro lr hlr
          have h1 := (combos_mem hlr).1
          have hne : lr.1 ≠ ∅ := by
            have := List.mem_filter.mp h1
            simpa using this.2
          have hu : lr.1 ∪ lr.2 ≠ ∅ := by
            intro hc
            exact hne (Finset.union_eq_empty.mp hc).1
          rw [if_neg hu]
      rw [hcong]
      have hlenpos : 0 < (combos (sets.filter (fun s => s ≠ ∅))).length :=
        combos_length_pos (by omega)
      rw [List.length_map]
      rw [if_neg (by omega)]
  · intro fp name ln co body
    constructor
    · constructor
      · rintro ⟨i, hi, hrid⟩
        unfold classQualityIssues at hi
        rcases List.mem_append.mp hi with hA | hB
        · rw [mem_ite_singleton hA] at hrid
          exact absurd hrid (by decide : ¬ ("SS216" : String) = "SS218")
        · cases hc : python_class_cohesion
            ((methodNodes body).map self_fields_in_method) with
          | none => rw [hc] at hB; simp at hB
          | some q =>
              rw [hc] at hB
              have hB2 : i ∈ (if q < 3 / 20 then
                  [{ rule_id := "SS218"
                     title := "Low class cohesion"
                     severity := "medium"
                     message := "Class '" ++ name
                       ++ "' methods share little common state (cohesion score "
                       ++ ratToStr2 q ++ ")."
                     file_path := fp
                     line := ln
                     column := co + 1 }]
                else []) := hB
              by_cases hq : q < 3 / 20
              · exact ⟨q, rfl, hq⟩
              · rw [if_neg hq] at hB2
                simp at hB2
      · rintro ⟨q, hq, hlt⟩
        refine ⟨{ rule_id := "SS218"
                  title := "Low class cohesion"
                  severity := "medium"
                  message := "Class '" ++ name
                    ++ "' methods share little common state (cohesion score "
                    ++ ratToStr2 q ++ ")."
                  file_path := fp
                  line := ln
                  column := co + 1 }, ?_, rfl⟩
        unfold classQualityIssues
        refine List.mem_append.mpr (Or.inr ?_)
        rw [hq]
        show _ ∈ (if q < 3 / 20 then
            [({ rule_id := "SS218"
                title := "Low class cohesion"
                severity := "medium"
                message := "Class '" ++ name
                  ++ "' methods share little common state (cohesion score "
                  ++ ratToStr2 q ++ ")."
                file_path := fp
                line := ln
                column := co + 1 } : Issue)]
          else [])
        rw [if_pos hlt]
        exact List.mem_singleton.mpr rfl
    · intro i hi
      unfold classQualityIssues at hi
      rcases List.mem_append.mp hi with hA | hB
      · rw [mem_ite_singleton hA]
      · cases hc : python_class_cohesion
          ((methodNodes body).map self_fields_in_method) with
        | none => rw [hc] at hB; simp at hB
        | some q =>
            rw [hc] at hB
            have hB2 : i ∈ (if q < 3 / 20 then
                [{ rule_id := "SS218"
                   title := "Low class cohesion"
                   severity := "medium"
                   message := "Class '" ++ name
                     ++ "' methods share little common state (cohesion score "
                     ++ ratToStr2 q ++ ")."
                   file_path := fp
                   line := ln
                   column := co + 1 }]
              else []) := hB
            rw [mem_ite_singleton hB2]

/-- Concrete field sets for the C8 witness: three methods touching
disjoint fields. -/
def c8Sets : List (Finset String) := [{"a"}, {"b"}, {"c"}]

/-- C8 witness: the cohesion formula applied at the concrete field sets;
the hypothesis that at least 3 methods reference a field is discharged
by computation. -/
theorem C8_class_cohesion_witness :
    3 ≤ (c8Sets.filter (fun s => s ≠ ∅)).length ∧
    python_class_cohesion c8Sets =
      some ((((combos (c8Sets.filter (fun s => s ≠ ∅))).map
          (fun lr => ((lr.1 ∩ lr.2).card : ℚ) /
            ((lr.1 ∪ lr.2).card : ℚ))).sum) /
        (((combos (c8Sets.filter (fun s => s ≠ ∅))).length : ℚ))) :=
  ⟨by decide, (C8_class_cohesion.1 c8Sets).2.1 (by decide)⟩
